import Mathlib

/-!
Verification of the geometry / coordinate-transform core of the
`replit_floorplan` editor against its specification.

The TypeScript sources are shallowly embedded over `ℚ`: JavaScript numbers
are IEEE doubles, but every function verified here uses only field
arithmetic and comparisons, which we model exactly over the rationals.
Where the source calls `Math.sqrt` the computed root is only ever used in
order comparisons between non-negative quantities, so those embeddings
carry the squared quantity and compare against `t * |t|` (the signed
square), which is a strictly monotone image of `t`; each such place is
marked in a comment.  Division by zero in JavaScript produces `NaN` or
`±Infinity`; in `ℚ` it produces `0` — the one place where this matters
(`applyCornerDrag` on a degenerate bounding box, claim C6) is analysed
explicitly.
-/

namespace Floorplan

/-- Point record from shared/schema.ts: `{x, y}`, world feet or pixels. -/
@[ext]
structure Point where
  x : ℚ
  y : ℚ
  deriving DecidableEq, Repr

/-- ViewTransform record from shared/schema.ts: `{panX, panY, zoom}`. -/
structure ViewTransform where
  panX : ℚ
  panY : ℚ
  zoom : ℚ
  deriving DecidableEq, Repr

/-- Constant MM_TO_INCHES = 1 / 25.4 from shared/schema.ts. -/
def MM_TO_INCHES : ℚ := 1 / (254 / 10)

/-- Constant A2_SHEET_HEIGHT_MM = 420 from shared/schema.ts. -/
def A2_SHEET_HEIGHT_MM : ℚ := 420

/-- Constant A2_SHEET_WIDTH_MM = 594 from shared/schema.ts. -/
def A2_SHEET_WIDTH_MM : ℚ := 594

/-- Constant A2_WIDTH_FT = 191.5 from shared/schema.ts. -/
def A2_WIDTH_FT : ℚ := 383 / 2

/-- Constant A2_HEIGHT_FT = 191.5 * (594 / 420) from shared/schema.ts. -/
def A2_HEIGHT_FT : ℚ := (383 / 2) * (A2_SHEET_WIDTH_MM / A2_SHEET_HEIGHT_MM)

/-- Embedding of pixelsPerFoot from client/src/lib/coordinate-math.ts:
paper height in inches times dpi, divided by the sheet height in feet. -/
def pixelsPerFoot (dpi : ℚ) : ℚ :=
  let paperHeightInches := A2_SHEET_HEIGHT_MM * MM_TO_INCHES
  let paperHeightPixels := paperHeightInches * dpi
  paperHeightPixels / A2_HEIGHT_FT

/-- Embedding of mmToPixels from client/src/lib/coordinate-math.ts. -/
def mmToPixels (mm dpi : ℚ) : ℚ :=
  (mm * MM_TO_INCHES) * dpi

/-- Embedding of pixelsPerFoot from server/export-engine.ts: `dpi / PLOT_SCALE`.
PLOT_SCALE is imported there from shared/schema.ts; the checked-in
shared/schema.ts revision does not export it — the value 3.1 is taken from
the repository's other schema revision (kept next to coordinate-math.ts),
which defines `PLOT_SCALE = 3.1`. -/
def exportPixelsPerFoot (dpi : ℚ) : ℚ :=
  dpi / (31 / 10)

/-- Embedding of worldToCanvas from client/src/lib/coordinate-math.ts. -/
def worldToCanvas (point : Point) (viewTransform : ViewTransform)
    (editingDPI canvasWidth canvasHeight : ℚ) : Point :=
  let ppf := pixelsPerFoot editingDPI
  let canvasCenterX := canvasWidth / 2
  let canvasCenterY := canvasHeight / 2
  let offsetX := point.x - (A2_WIDTH_FT / 2)
  let offsetY := point.y - (A2_HEIGHT_FT / 2)
  { x := canvasCenterX + (offsetX * ppf * viewTransform.zoom) + viewTransform.panX
    y := canvasCenterY + (offsetY * ppf * viewTransform.zoom) + viewTransform.panY }

/-- Embedding of canvasToWorld from client/src/lib/coordinate-math.ts. -/
def canvasToWorld (point : Point) (viewTransform : ViewTransform)
    (editingDPI canvasWidth canvasHeight : ℚ) : Point :=
  let ppf := pixelsPerFoot editingDPI
  let canvasCenterX := canvasWidth / 2
  let canvasCenterY := canvasHeight / 2
  let worldX := (point.x - canvasCenterX - viewTransform.panX) / (ppf * viewTransform.zoom)
  let worldY := (point.y - canvasCenterY - viewTransform.panY) / (ppf * viewTransform.zoom)
  { x := worldX + (A2_WIDTH_FT / 2)
    y := worldY + (A2_HEIGHT_FT / 2) }

lemma pixelsPerFoot_eq (dpi : ℚ) :
    pixelsPerFoot dpi = dpi * (A2_SHEET_HEIGHT_MM * MM_TO_INCHES / A2_HEIGHT_FT) := by
  show A2_SHEET_HEIGHT_MM * MM_TO_INCHES * dpi / A2_HEIGHT_FT = _
  ring

lemma pixelsPerFoot_pos {dpi : ℚ} (h : 0 < dpi) : 0 < pixelsPerFoot dpi := by
  rw [pixelsPerFoot_eq]
  have hc : (0 : ℚ) < A2_SHEET_HEIGHT_MM * MM_TO_INCHES / A2_HEIGHT_FT := by
    norm_num [A2_SHEET_HEIGHT_MM, MM_TO_INCHES, A2_HEIGHT_FT, A2_SHEET_WIDTH_MM]
  exact mul_pos h hc

/-- C1: for every world point, every view transform with positive zoom,
every (positive) DPI and every viewport size, canvasToWorld inverts
worldToCanvas exactly — hence in particular to within 1e-9 in each
coordinate.  (The program only ever uses the DPI values 96, 150, 300 and
600, all positive; at dpi = 0 or zoom = 0 the forward map is constant and
has no inverse.) -/
theorem canvasToWorld_worldToCanvas (p : Point) (vt : ViewTransform)
    (dpi w h : ℚ) (hzoom : 0 < vt.zoom) (hdpi : 0 < dpi) :
    canvasToWorld (worldToCanvas p vt dpi w h) vt dpi w h = p := by
  have hppf : pixelsPerFoot dpi ≠ 0 := ne_of_gt (pixelsPerFoot_pos hdpi)
  have hz : vt.zoom ≠ 0 := ne_of_gt hzoom
  unfold canvasToWorld worldToCanvas
  ext <;> (field_simp; ring)

/-- Witness for C1 at a concrete input: p = (3, 7), pan (5, -4), zoom 2,
dpi 96, viewport 800 × 600. -/
theorem canvasToWorld_worldToCanvas_witness :
    canvasToWorld (worldToCanvas ⟨3, 7⟩ ⟨5, -4, 2⟩ 96 800 600) ⟨5, -4, 2⟩ 96 800 600
      = ⟨3, 7⟩ :=
  canvasToWorld_worldToCanvas ⟨3, 7⟩ ⟨5, -4, 2⟩ 96 800 600 (by norm_num) (by norm_num)

/-- C2: the interactive pixelsPerFoot (client coordinate-math) and the
export pixelsPerFoot (server export-engine) disagree at every supported
export DPI: the client returns dpi·(420/25.4)/270.8357…, the server
returns dpi/3.1.  The export-engine revision in src/unnamed/part_006
implements the client formula verbatim, and the spec makes agreement a
hard compatibility requirement, so the checked-in server implementation is
the slip. -/
theorem pixelsPerFoot_client_server_disagree :
    pixelsPerFoot 96 ≠ exportPixelsPerFoot 96 ∧
    pixelsPerFoot 150 ≠ exportPixelsPerFoot 150 ∧
    pixelsPerFoot 300 ≠ exportPixelsPerFoot 300 ∧
    pixelsPerFoot 600 ≠ exportPixelsPerFoot 600 := by
  refine ⟨?_, ?_, ?_, ?_⟩ <;>
    norm_num [pixelsPerFoot, exportPixelsPerFoot, A2_SHEET_HEIGHT_MM, MM_TO_INCHES,
      A2_HEIGHT_FT, A2_SHEET_WIDTH_MM]

/-- Helper modelling JavaScript spread `Math.min(...xs)` on a non-empty
array (the sources guard the empty case separately). -/
def listMin : List ℚ → ℚ
  | [] => 0
  | x :: xs => xs.foldl min x

/-- Helper modelling JavaScript spread `Math.max(...xs)` on a non-empty
array (the sources guard the empty case separately). -/
def listMax : List ℚ → ℚ
  | [] => 0
  | x :: xs => xs.foldl max x

/-- Bounding box record `{min, max}` returned by getBounds. -/
structure Bounds where
  min : Point
  max : Point
  deriving DecidableEq, Repr

/-- Embedding of getBounds from client/src/lib/coordinate-math.ts (the
copy in server/transform-math.ts is identical). -/
def getBounds (vertices : List Point) : Bounds :=
  if vertices.length = 0 then ⟨⟨0, 0⟩, ⟨0, 0⟩⟩
  else
    let xs := vertices.map Point.x
    let ys := vertices.map Point.y
    ⟨⟨listMin xs, listMin ys⟩, ⟨listMax xs, listMax ys⟩⟩

/-- Embedding of polygonArea from client/src/lib/coordinate-math.ts
(calculatePolygonArea in server/transform-math.ts is identical): absolute
shoelace sum, 0 for fewer than 3 vertices. -/
def polygonArea (vertices : List Point) : ℚ :=
  if vertices.length < 3 then 0
  else
    let n := vertices.length
    let area := (List.range n).foldl
      (fun area i =>
        let j := (i + 1) % n
        let vi := vertices.getD i ⟨0, 0⟩
        let vj := vertices.getD j ⟨0, 0⟩
        area + vi.x * vj.y - vj.x * vi.y) 0
    |area / 2|

/-- Handle enumeration from shared/schema.ts. -/
inductive HandleType where
  | nw | n | ne | e | se | s | sw | w | center | rotate
  deriving DecidableEq, Repr

/-- Shape type enumeration from shared/schema.ts. -/
inductive ShapeType where
  | rectangle | polygon | line | freehand
  deriving DecidableEq, Repr

/-- FloorplanShape record from shared/schema.ts, restricted to the fields
the verified functions read (id, type, vertices, layer).  The style fields
strokeMm/strokeColor/fill/labelVisibility/lockAspect/name/rotation are
never inspected by any function verified here. -/
structure FloorplanShape where
  id : String
  type : ShapeType
  vertices : List Point
  layer : String
  deriving DecidableEq, Repr

/-- Embedding of applyMidpointScaling from server/transform-math.ts.  The
unused `centerX`/`centerY` locals of the source are dropped. -/
def applyMidpointScaling (handleType : HandleType) (draggedWorldPoint : Point)
    (initialVertices : List Point) (isSymmetric : Bool) : List Point :=
  if initialVertices.length < 2 then initialVertices
  else
    let xs := initialVertices.map Point.x
    let ys := initialVertices.map Point.y
    let minX := listMin xs
    let maxX := listMax xs
    let minY := listMin ys
    let maxY := listMax ys
    match handleType with
    | .n =>
      let deltaY := draggedWorldPoint.y - minY
      initialVertices.map fun v =>
        if |v.y - minY| < 1/1000 then { v with y := draggedWorldPoint.y }
        else if isSymmetric ∧ |v.y - maxY| < 1/1000 then { v with y := maxY - deltaY }
        else v
    | .s =>
      let deltaY := draggedWorldPoint.y - maxY
      initialVertices.map fun v =>
        if |v.y - maxY| < 1/1000 then { v with y := draggedWorldPoint.y }
        else if isSymmetric ∧ |v.y - minY| < 1/1000 then { v with y := minY - deltaY }
        else v
    | .e =>
      let deltaX := draggedWorldPoint.x - maxX
      initialVertices.map fun v =>
        if |v.x - maxX| < 1/1000 then { v with x := draggedWorldPoint.x }
        else if isSymmetric ∧ |v.x - minX| < 1/1000 then { v with x := minX - deltaX }
        else v
    | .w =>
      let deltaX := draggedWorldPoint.x - minX
      initialVertices.map fun v =>
        if |v.x - minX| < 1/1000 then { v with x := draggedWorldPoint.x }
        else if isSymmetric ∧ |v.x - maxX| < 1/1000 then { v with x := maxX - deltaX }
        else v
    | _ => initialVertices

/-- Anchor point and raw new width/height of applyCornerDrag's `switch`
(server/transform-math.ts): `none` models the `default: return
initialVertices` arm. -/
def cornerParams (handleType : HandleType) (draggedWorldPoint : Point)
    (minX maxX minY maxY : ℚ) : Option (Point × ℚ × ℚ) :=
  match handleType with
  | .nw => some (⟨maxX, maxY⟩, maxX - draggedWorldPoint.x, maxY - draggedWorldPoint.y)
  | .ne => some (⟨minX, maxY⟩, draggedWorldPoint.x - minX, maxY - draggedWorldPoint.y)
  | .se => some (⟨minX, minY⟩, draggedWorldPoint.x - minX, draggedWorldPoint.y - minY)
  | .sw => some (⟨maxX, minY⟩, maxX - draggedWorldPoint.x, draggedWorldPoint.y - minY)
  | _ => none

/-- JavaScript Math.sign on a (non-NaN) number. -/
def jsSign (q : ℚ) : ℚ :=
  if 0 < q then 1 else if q < 0 then -1 else 0

/-- Embedding of applyCornerDrag from server/transform-math.ts.  The
source's unused `aspectRatio` local is dropped.  For a degenerate
bounding box the source divides by the zero extent (`relX = 0/0`, NaN in
JavaScript); in this rational model `q / 0 = 0` — claim C6 exhibits the
corruption either way. -/
def applyCornerDrag (handleType : HandleType) (draggedWorldPoint : Point)
    (initialVertices : List Point) (constrainAspect isSymmetric : Bool) : List Point :=
  if initialVertices.length < 2 then initialVertices
  else
    let xs := initialVertices.map Point.x
    let ys := initialVertices.map Point.y
    let minX := listMin xs
    let maxX := listMax xs
    let minY := listMin ys
    let maxY := listMax ys
    let centerX := (minX + maxX) / 2
    let centerY := (minY + maxY) / 2
    let initialWidth := maxX - minX
    let initialHeight := maxY - minY
    match cornerParams handleType draggedWorldPoint minX maxX minY maxY with
    | none => initialVertices
    | some (anchorPoint, w0, h0) =>
      let avgScale := (|w0 / initialWidth| + |h0 / initialHeight|) / 2
      let newWidth := if constrainAspect then initialWidth * avgScale * jsSign w0 else w0
      let newHeight := if constrainAspect then initialHeight * avgScale * jsSign h0 else h0
      initialVertices.map fun v =>
        let relX := (v.x - minX) / initialWidth
        let relY := (v.y - minY) / initialHeight
        if isSymmetric then
          ⟨centerX + (relX - 1/2) * newWidth, centerY + (relY - 1/2) * newHeight⟩
        else
          ⟨anchorPoint.x + (relX - (if anchorPoint.x = maxX then 1 else 0)) * newWidth,
           anchorPoint.y + (relY - (if anchorPoint.y = maxY then 1 else 0)) * newHeight⟩

/-- Embedding of applyTranslation from server/transform-math.ts. -/
def applyTranslation (deltaX deltaY : ℚ) (initialVertices : List Point) : List Point :=
  initialVertices.map fun v => ⟨v.x + deltaX, v.y + deltaY⟩

/-- Embedding of applyRotation from server/transform-math.ts.  The source
computes `cos = Math.cos(angle)` and `sin = Math.sin(angle)` once and then
maps; the two transcendental values are taken here as parameters (no claim
depends on their numeric value, and quantifying over them covers the real
cosine/sine). -/
def applyRotation (cosA sinA : ℚ) (center : Point) (initialVertices : List Point) :
    List Point :=
  initialVertices.map fun v =>
    let dx := v.x - center.x
    let dy := v.y - center.y
    ⟨center.x + dx * cosA - dy * sinA, center.y + dx * sinA + dy * cosA⟩

/-- Result record of improvedTransformVertices.  The source also carries
an optional `rotationDelta` (atan2-based degrees) which is produced only
by the rotate branch — with the vertices returned unchanged; no claim
reads the transcendental angle, so the embedding carries the vertices
only. -/
structure TransformResult where
  vertices : List Point
  deriving DecidableEq, Repr

/-- Embedding of improvedTransformVertices from
client/src/lib/improved-transform.ts.  The `shape` parameter is received
but never read by the source body (except that the rotate branch returns
the vertices unchanged alongside the omitted angle). -/
def improvedTransformVertices (originalVertices : List Point) (handle : HandleType)
    (startPoint currentPoint : Point) (shiftKey altKey : Bool)
    (shape : FloorplanShape) : TransformResult :=
  if originalVertices.length = 0 then ⟨originalVertices⟩
  else
    let xs := originalVertices.map Point.x
    let ys := originalVertices.map Point.y
    let minX := listMin xs
    let maxX := listMax xs
    let minY := listMin ys
    let maxY := listMax ys
    let delta : Point := ⟨currentPoint.x - startPoint.x, currentPoint.y - startPoint.y⟩
    -- The source dispatches on `handle` through an if/else-if chain over
    -- the enum (with `handle.includes('n')` etc. for the corner cases);
    -- each arm below is that chain's arm with the target coordinates
    -- already resolved per handle.
    match handle with
    | .center => ⟨originalVertices.map fun v => ⟨v.x + delta.x, v.y + delta.y⟩⟩
    | .rotate => ⟨originalVertices⟩
    | .n =>
      ⟨originalVertices.map fun v =>
        if |v.y - minY| < 1/10 then ⟨v.x, v.y + delta.y⟩ else v⟩
    | .s =>
      ⟨originalVertices.map fun v =>
        if |v.y - maxY| < 1/10 then ⟨v.x, v.y + delta.y⟩ else v⟩
    | .e =>
      ⟨originalVertices.map fun v =>
        if |v.x - maxX| < 1/10 then ⟨v.x + delta.x, v.y⟩ else v⟩
    | .w =>
      ⟨originalVertices.map fun v =>
        if |v.x - minX| < 1/10 then ⟨v.x + delta.x, v.y⟩ else v⟩
    | .nw =>
      ⟨originalVertices.map fun v =>
        ⟨if |v.x - minX| < 1/10 then v.x + delta.x else v.x,
         if |v.y - minY| < 1/10 then v.y + delta.y else v.y⟩⟩
    | .ne =>
      ⟨originalVertices.map fun v =>
        ⟨if |v.x - maxX| < 1/10 then v.x + delta.x else v.x,
         if |v.y - minY| < 1/10 then v.y + delta.y else v.y⟩⟩
    | .se =>
      ⟨originalVertices.map fun v =>
        ⟨if |v.x - maxX| < 1/10 then v.x + delta.x else v.x,
         if |v.y - maxY| < 1/10 then v.y + delta.y else v.y⟩⟩
    | .sw =>
      ⟨originalVertices.map fun v =>
        ⟨if |v.x - minX| < 1/10 then v.x + delta.x else v.x,
         if |v.y - maxY| < 1/10 then v.y + delta.y else v.y⟩⟩

/-- C10: no transform ever adds or drops a vertex — applyTranslation,
applyRotation, applyMidpointScaling, applyCornerDrag and
improvedTransformVertices all return exactly as many vertices as they
received, for every handle type and every modifier combination. -/
theorem transforms_preserve_vertex_count (h : HandleType)
    (dragged startP currentP center : Point) (vs : List Point)
    (dx dy cosA sinA : ℚ) (constrainAspect isSymmetric shiftKey altKey : Bool)
    (shape : FloorplanShape) :
    (applyTranslation dx dy vs).length = vs.length ∧
    (applyRotation cosA sinA center vs).length = vs.length ∧
    (applyMidpointScaling h dragged vs isSymmetric).length = vs.length ∧
    (applyCornerDrag h dragged vs constrainAspect isSymmetric).length = vs.length ∧
    ((improvedTransformVertices vs h startP currentP shiftKey altKey shape).vertices).length
      = vs.length := by
  refine ⟨?_, ?_, ?_, ?_, ?_⟩
  · simp [applyTranslation]
  · simp [applyRotation]
  · unfold applyMidpointScaling
    split
    · rfl
    · cases h <;> simp
  · unfold applyCornerDrag
    split
    · rfl
    · cases h <;> simp [cornerParams]
  · unfold improvedTransformVertices
    split
    · rfl
    · cases h <;> simp

/-- C5 (amended, applyMidpointScaling side): dragging the n handle of the
10×10 box to y = 2 with the symmetric modifier held, through the server
transform-math implementation, moves the dragged edge to y = 2 and the
opposite edge to y = 8, preserving the centre at y = 5 with x coordinates
unchanged. -/
theorem midpointScaling_n_symmetric_square :
    applyMidpointScaling .n ⟨5, 2⟩ [⟨0, 0⟩, ⟨10, 0⟩, ⟨10, 10⟩, ⟨0, 10⟩] true
      = [⟨0, 2⟩, ⟨10, 2⟩, ⟨10, 8⟩, ⟨0, 8⟩] ∧
    getBounds (applyMidpointScaling .n ⟨5, 2⟩ [⟨0, 0⟩, ⟨10, 0⟩, ⟨10, 10⟩, ⟨0, 10⟩] true)
      = ⟨⟨0, 2⟩, ⟨10, 8⟩⟩ := by
  norm_num [applyMidpointScaling, getBounds, listMin, listMax]

/-- C5 counterexample: the client improvedTransformVertices path — the one
FloorplanCanvas actually invokes for edge drags — has no symmetric mode:
the same drag with the modifier held moves only the dragged edge, giving a
bounding box with maxY = 10, not the claimed minY = 2 / maxY = 8. -/
theorem improvedTransform_n_ignores_symmetric :
    (getBounds (improvedTransformVertices [⟨0, 0⟩, ⟨10, 0⟩, ⟨10, 10⟩, ⟨0, 10⟩] .n
        ⟨5, 0⟩ ⟨5, 2⟩ true false ⟨"sq", .rectangle, [], "house"⟩).vertices).max.y = 10 ∧
    ¬ ((getBounds (improvedTransformVertices [⟨0, 0⟩, ⟨10, 0⟩, ⟨10, 10⟩, ⟨0, 10⟩] .n
        ⟨5, 0⟩ ⟨5, 2⟩ true false ⟨"sq", .rectangle, [], "house"⟩).vertices).min.y = 2 ∧
      (getBounds (improvedTransformVertices [⟨0, 0⟩, ⟨10, 0⟩, ⟨10, 10⟩, ⟨0, 10⟩] .n
        ⟨5, 0⟩ ⟨5, 2⟩ true false ⟨"sq", .rectangle, [], "house"⟩).vertices).max.y = 8) := by
  norm_num [improvedTransformVertices, getBounds, listMin, listMax]

/-- C6: applyCornerDrag has no degenerate-box guard.  On the zero-width
shape [(5,0),(5,10)], dragging the nw corner to (0,0) divides by the zero
extent (`relX = (x - minX)/0`, NaN in JavaScript, 0 under the rational
convention), so the x coordinates are corrupted to 0 instead of the
vertices being left unchanged as the spec's clamp-to-identity rule
requires. -/
theorem cornerDrag_degenerate_corrupts :
    applyCornerDrag .nw ⟨0, 0⟩ [⟨5, 0⟩, ⟨5, 10⟩] false false = [⟨0, 0⟩, ⟨0, 10⟩] ∧
    applyCornerDrag .nw ⟨0, 0⟩ [⟨5, 0⟩, ⟨5, 10⟩] false false ≠ [⟨5, 0⟩, ⟨5, 10⟩] := by
  norm_num [applyCornerDrag, cornerParams, getBounds, listMin, listMax]

lemma min_affine {α : ℚ} (β x y : ℚ) (hα : 0 ≤ α) :
    min (α * x + β) (α * y + β) = α * min x y + β := by
  rcases le_total x y with h | h
  · rw [min_eq_left h, min_eq_left (by have := mul_le_mul_of_nonneg_left h hα; linarith)]
  · rw [min_eq_right h, min_eq_right (by have := mul_le_mul_of_nonneg_left h hα; linarith)]

lemma min_affine_neg {α : ℚ} (β x y : ℚ) (hα : α ≤ 0) :
    min (α * x + β) (α * y + β) = α * max x y + β := by
  rcases le_total x y with h | h
  · rw [max_eq_right h, min_eq_right (by nlinarith)]
  · rw [max_eq_left h, min_eq_left (by nlinarith)]

lemma max_affine {α : ℚ} (β x y : ℚ) (hα : 0 ≤ α) :
    max (α * x + β) (α * y + β) = α * max x y + β := by
  rcases le_total x y with h | h
  · rw [max_eq_right h, max_eq_right (by have := mul_le_mul_of_nonneg_left h hα; linarith)]
  · rw [max_eq_left h, max_eq_left (by have := mul_le_mul_of_nonneg_left h hα; linarith)]

lemma max_affine_neg {α : ℚ} (β x y : ℚ) (hα : α ≤ 0) :
    max (α * x + β) (α * y + β) = α * min x y + β := by
  rcases le_total x y with h | h
  · rw [min_eq_left h, max_eq_left (by nlinarith)]
  · rw [min_eq_right h, max_eq_right (by nlinarith)]

lemma foldl_min_affine (l : List ℚ) {α : ℚ} (β : ℚ) (hα : 0 ≤ α) :
    ∀ x, (l.map fun q => α * q + β).foldl min (α * x + β) = α * l.foldl min x + β := by
  induction l with
  | nil => intro x; rfl
  | cons a l ih =>
    intro x
    simp only [List.map_cons, List.foldl_cons]
    rw [min_affine _ _ _ hα, ih]

lemma foldl_min_affine_neg (l : List ℚ) {α : ℚ} (β : ℚ) (hα : α ≤ 0) :
    ∀ x, (l.map fun q => α * q + β).foldl min (α * x + β) = α * l.foldl max x + β := by
  induction l with
  | nil => intro x; rfl
  | cons a l ih =>
    intro x
    simp only [List.map_cons, List.foldl_cons]
    rw [min_affine_neg _ _ _ hα, ih]

lemma foldl_max_affine (l : List ℚ) {α : ℚ} (β : ℚ) (hα : 0 ≤ α) :
    ∀ x, (l.map fun q => α * q + β).foldl max (α * x + β) = α * l.foldl max x + β := by
  induction l with
  | nil => intro x; rfl
  | cons a l ih =>
    intro x
    simp only [List.map_cons, List.foldl_cons]
    rw [max_affine _ _ _ hα, ih]

lemma foldl_max_affine_neg (l : List ℚ) {α : ℚ} (β : ℚ) (hα : α ≤ 0) :
    ∀ x, (l.map fun q => α * q + β).foldl max (α * x + β) = α * l.foldl min x + β := by
  induction l with
  | nil => intro x; rfl
  | cons a l ih =>
    intro x
    simp only [List.map_cons, List.foldl_cons]
    rw [max_affine_neg _ _ _ hα, ih]

lemma listMin_map_affine {l : List ℚ} (hl : l ≠ []) (α β : ℚ) :
    listMin (l.map fun q => α * q + β) =
      (if 0 ≤ α then α * listMin l else α * listMax l) + β := by
  cases l with
  | nil => exact absurd rfl hl
  | cons a l =>
    simp only [List.map_cons, listMin, listMax]
    split
    · exact foldl_min_affine l β (by assumption) a
    · exact foldl_min_affine_neg l β (by linarith [lt_of_not_le (by assumption)]) a

lemma listMax_map_affine {l : List ℚ} (hl : l ≠ []) (α β : ℚ) :
    listMax (l.map fun q => α * q + β) =
      (if 0 ≤ α then α * listMax l else α * listMin l) + β := by
  cases l with
  | nil => exact absurd rfl hl
  | cons a l =>
    simp only [List.map_cons, listMin, listMax]
    split
    · exact foldl_max_affine l β (by assumption) a
    · exact foldl_max_affine_neg l β (by linarith [lt_of_not_le (by assumption)]) a

/-- Helper: an axis-aligned affine map on points, the normal form of the
vertex maps produced by applyCornerDrag. -/
def affinePoint (a₁ b₁ a₂ b₂ : ℚ) (v : Point) : Point :=
  ⟨a₁ * v.x + b₁, a₂ * v.y + b₂⟩

lemma getBounds_ne_nil {vs : List Point} (hvs : vs ≠ []) :
    getBounds vs = ⟨⟨listMin (vs.map Point.x), listMin (vs.map Point.y)⟩,
                    ⟨listMax (vs.map Point.x), listMax (vs.map Point.y)⟩⟩ := by
  unfold getBounds
  rw [if_neg (by simpa using hvs)]

lemma getBounds_map_of_affine {vs : List Point} (hvs : vs ≠ [])
    (f : Point → Point) (a₁ b₁ a₂ b₂ : ℚ)
    (hf : ∀ v, f v = affinePoint a₁ b₁ a₂ b₂ v) :
    getBounds (vs.map f) =
      ⟨⟨(if 0 ≤ a₁ then a₁ * (getBounds vs).min.x else a₁ * (getBounds vs).max.x) + b₁,
        (if 0 ≤ a₂ then a₂ * (getBounds vs).min.y else a₂ * (getBounds vs).max.y) + b₂⟩,
       ⟨(if 0 ≤ a₁ then a₁ * (getBounds vs).max.x else a₁ * (getBounds vs).min.x) + b₁,
        (if 0 ≤ a₂ then a₂ * (getBounds vs).max.y else a₂ * (getBounds vs).min.y) + b₂⟩⟩ := by
  have hmap : vs.map f = vs.map (affinePoint a₁ b₁ a₂ b₂) :=
    List.map_congr_left fun v _ => hf v
  have hne : vs.map (affinePoint a₁ b₁ a₂ b₂) ≠ [] := by
    simpa using hvs
  have hx : (vs.map (affinePoint a₁ b₁ a₂ b₂)).map Point.x =
      (vs.map Point.x).map fun q => a₁ * q + b₁ := by
    simp [List.map_map, affinePoint, Function.comp]
  have hy : (vs.map (affinePoint a₁ b₁ a₂ b₂)).map Point.y =
      (vs.map Point.y).map fun q => a₂ * q + b₂ := by
    simp [List.map_map, affinePoint, Function.comp]
  have hxne : vs.map Point.x ≠ [] := by simpa using hvs
  have hyne : vs.map Point.y ≠ [] := by simpa using hvs
  rw [hmap, getBounds_ne_nil hne, getBounds_ne_nil hvs]
  simp only [Bounds.mk.injEq, Point.mk.injEq]
  refine ⟨⟨?_, ?_⟩, ?_, ?_⟩
  · rw [hx, listMin_map_affine hxne]
  · rw [hy, listMin_map_affine hyne]
  · rw [hx, listMax_map_affine hxne]
  · rw [hy, listMax_map_affine hyne]

lemma abs_jsSign {q : ℚ} (hq : q ≠ 0) : |jsSign q| = 1 := by
  rcases lt_trichotomy q 0 with h | h | h
  · simp [jsSign, not_lt_of_gt h, h]
  · exact absurd h hq
  · simp [jsSign, h]

/-- Bounding-box corner opposite a given corner handle, as the claim
words it (n is the min-y side, as in the code): the anchor corner of the
drag. -/
def oppositeCorner (handle : HandleType) (b : Bounds) : Point :=
  match handle with
  | .nw => b.max
  | .ne => ⟨b.min.x, b.max.y⟩
  | .se => b.min
  | .sw => ⟨b.max.x, b.min.y⟩
  | _ => b.min

lemma length_ge_two_of_pos_width {vs : List Point}
    (hw : 0 < (getBounds vs).max.x - (getBounds vs).min.x) :
    ¬ vs.length < 2 := by
  intro hlen
  interval_cases h : vs.length
  · rw [List.length_eq_zero] at h
    subst h
    simp [getBounds] at hw
  · rw [List.length_eq_one] at h
    obtain ⟨v, rfl⟩ := h
    simp [getBounds, listMin, listMax] at hw

lemma ite_width (a mn mx b : ℚ) :
    ((if 0 ≤ a then a * mx else a * mn) + b) - ((if 0 ≤ a then a * mn else a * mx) + b)
      = |a| * (mx - mn) := by
  split_ifs with h
  · rw [abs_of_nonneg h]; ring
  · rw [abs_of_neg (lt_of_not_le h)]; ring

lemma cornerDrag_ratio_core {vs : List Point} (hvs : vs ≠ [])
    (f : Point → Point) (a₁ b₁ a₂ b₂ : ℚ)
    (hf : ∀ v, f v = affinePoint a₁ b₁ a₂ b₂ v)
    (habs : |a₁| = |a₂|) :
    ((getBounds (vs.map f)).max.x - (getBounds (vs.map f)).min.x)
        * (listMax (vs.map Point.y) - listMin (vs.map Point.y))
      = ((getBounds (vs.map f)).max.y - (getBounds (vs.map f)).min.y)
        * (listMax (vs.map Point.x) - listMin (vs.map Point.x)) := by
  rw [getBounds_map_of_affine hvs f a₁ b₁ a₂ b₂ hf, getBounds_ne_nil hvs]
  dsimp only
  rw [ite_width, ite_width, habs]
  ring

/-- Helper: bounding-box width, `maxX - minX` of a vertex list. -/
def bbW (vs : List Point) : ℚ := listMax (vs.map Point.x) - listMin (vs.map Point.x)

/-- Helper: bounding-box height, `maxY - minY` of a vertex list. -/
def bbH (vs : List Point) : ℚ := listMax (vs.map Point.y) - listMin (vs.map Point.y)

lemma abs_scale_div {W s q : ℚ} (hW : W ≠ 0) (hs : 0 ≤ s) (hq : q ≠ 0) :
    |W * s * jsSign q / W| = s := by
  rw [abs_div, abs_mul, abs_mul, abs_jsSign hq, mul_one, abs_of_nonneg hs,
    mul_comm |W| s, mul_div_assoc, div_self (abs_ne_zero.mpr hW), mul_one]

/-- Normal form of applyCornerDrag as an affine map of the vertex list:
the dragged-corner scaling with aspect lock sends every vertex through an
axis-aligned affine map whose x slope is `W·sc·sign(w0)/W` and y slope is
`H·sc·sign(h0)/H`, where sc is the averaged scale of the source. -/
lemma cornerDrag_eq_map (handle : HandleType) (dragged : Point) (vs : List Point)
    (sym : Bool) (anchor : Point) (w0 h0 sc P c₁ Q c₂ : ℚ)
    (hlen : ¬ vs.length < 2)
    (hp : cornerParams handle dragged (listMin (vs.map Point.x)) (listMax (vs.map Point.x))
            (listMin (vs.map Point.y)) (listMax (vs.map Point.y)) = some (anchor, w0, h0))
    (hsc : sc = (|w0 / bbW vs| + |h0 / bbH vs|) / 2)
    (hP : P = (if sym then (listMin (vs.map Point.x) + listMax (vs.map Point.x)) / 2
               else anchor.x))
    (hc₁ : c₁ = (if sym then 1/2
                 else if anchor.x = listMax (vs.map Point.x) then 1 else 0))
    (hQ : Q = (if sym then (listMin (vs.map Point.y) + listMax (vs.map Point.y)) / 2
               else anchor.y))
    (hc₂ : c₂ = (if sym then 1/2
                 else if anchor.y = listMax (vs.map Point.y) then 1 else 0)) :
    applyCornerDrag handle dragged vs true sym
      = vs.map (affinePoint (bbW vs * sc * jsSign w0 / bbW vs)
          (P - (listMin (vs.map Point.x) / bbW vs + c₁) * (bbW vs * sc * jsSign w0))
          (bbH vs * sc * jsSign h0 / bbH vs)
          (Q - (listMin (vs.map Point.y) / bbH vs + c₂) * (bbH vs * sc * jsSign h0))) := by
  subst hsc hP hc₁ hQ hc₂
  simp only [applyCornerDrag]
  rw [if_neg hlen, hp]
  refine List.map_congr_left fun v _ => ?_
  cases sym
  · simp only [Bool.false_eq_true, if_false, if_true, affinePoint, bbW, bbH]
    exact Point.ext (by ring) (by ring)
  · simp only [Bool.false_eq_true, if_false, if_true, affinePoint, bbW, bbH]
    exact Point.ext (by ring) (by ring)

/-- C4 (amended): with the aspect-lock modifier, applyCornerDrag rescales
both bounding-box extents by the same averaged factor, so the new
bounding box keeps the original width:height ratio whenever the dragged
point lies on neither axis of the anchor (newWidth ≠ 0 and newHeight ≠ 0 —
on an axis the averaged-scale formula collapses one extent to zero and the
ratio is lost); when moreover the drag stays on the original side of the
anchor (newWidth > 0 and newHeight > 0) and symmetric mode is off, the
bounding-box corner opposite the dragged handle (the anchor corner) is
unchanged.  For drags past the anchor the box flips and the opposite
compass corner moves, which is what the counterexample exhibits. -/
theorem cornerDrag_aspect_lock (handle : HandleType) (dragged : Point)
    (vs : List Point) (isSymmetric : Bool) (anchor : Point) (w0 h0 : ℚ)
    (hw : 0 < (getBounds vs).max.x - (getBounds vs).min.x)
    (hh : 0 < (getBounds vs).max.y - (getBounds vs).min.y)
    (hp : cornerParams handle dragged (getBounds vs).min.x (getBounds vs).max.x
            (getBounds vs).min.y (getBounds vs).max.y = some (anchor, w0, h0))
    (hw0 : w0 ≠ 0) (hh0 : h0 ≠ 0) :
    ((getBounds (applyCornerDrag handle dragged vs true isSymmetric)).max.x
        - (getBounds (applyCornerDrag handle dragged vs true isSymmetric)).min.x)
      * ((getBounds vs).max.y - (getBounds vs).min.y)
    = ((getBounds (applyCornerDrag handle dragged vs true isSymmetric)).max.y
        - (getBounds (applyCornerDrag handle dragged vs true isSymmetric)).min.y)
      * ((getBounds vs).max.x - (getBounds vs).min.x)
    ∧ (isSymmetric = false → 0 < w0 → 0 < h0 →
        oppositeCorner handle (getBounds (applyCornerDrag handle dragged vs true false))
          = oppositeCorner handle (getBounds vs)) := by
  have hlen := length_ge_two_of_pos_width hw
  have hvs : vs ≠ [] := by
    intro hnil
    rw [hnil] at hlen
    simp at hlen
  rw [getBounds_ne_nil hvs] at hw hh hp ⊢
  dsimp only at hw hh hp ⊢
  have hbbW : 0 < bbW vs := hw
  have hbbH : 0 < bbH vs := hh
  have hbbWne : bbW vs ≠ 0 := ne_of_gt hbbW
  have hbbHne : bbH vs ≠ 0 := ne_of_gt hbbH
  have hscnn : (0 : ℚ) ≤ (|w0 / bbW vs| + |h0 / bbH vs|) / 2 := by positivity
  have hres : ∀ sym : Bool, applyCornerDrag handle dragged vs true sym
      = vs.map (affinePoint
          (bbW vs * ((|w0 / bbW vs| + |h0 / bbH vs|) / 2) * jsSign w0 / bbW vs)
          ((if sym then (listMin (vs.map Point.x) + listMax (vs.map Point.x)) / 2
            else anchor.x)
            - (listMin (vs.map Point.x) / bbW vs
                + (if sym then 1/2
                   else if anchor.x = listMax (vs.map Point.x) then 1 else 0))
              * (bbW vs * ((|w0 / bbW vs| + |h0 / bbH vs|) / 2) * jsSign w0))
          (bbH vs * ((|w0 / bbW vs| + |h0 / bbH vs|) / 2) * jsSign h0 / bbH vs)
          ((if sym then (listMin (vs.map Point.y) + listMax (vs.map Point.y)) / 2
            else anchor.y)
            - (listMin (vs.map Point.y) / bbH vs
                + (if sym then 1/2
                   else if anchor.y = listMax (vs.map Point.y) then 1 else 0))
              * (bbH vs * ((|w0 / bbW vs| + |h0 / bbH vs|) / 2) * jsSign h0))) :=
    fun sym => cornerDrag_eq_map handle dragged vs sym anchor w0 h0 _ _ _ _ _
      hlen hp rfl rfl rfl rfl rfl
  constructor
  · rw [hres isSymmetric]
    refine cornerDrag_ratio_core hvs _ _ _ _ _ (fun v => rfl) ?_
    rw [abs_scale_div hbbWne hscnn hw0, abs_scale_div hbbHne hscnn hh0]
  · intro hsf hw0p hh0p
    have hsgnW : jsSign w0 = 1 := by simp [jsSign, hw0p]
    have hsgnH : jsSign h0 = 1 := by simp [jsSign, hh0p]
    have h0leA : 0 ≤ bbW vs * ((|w0 / bbW vs| + |h0 / bbH vs|) / 2) * jsSign w0 / bbW vs := by
      rw [hsgnW, mul_one]
      exact div_nonneg (mul_nonneg (le_of_lt hbbW) hscnn) (le_of_lt hbbW)
    have h0leB : 0 ≤ bbH vs * ((|w0 / bbW vs| + |h0 / bbH vs|) / 2) * jsSign h0 / bbH vs := by
      rw [hsgnH, mul_one]
      exact div_nonneg (mul_nonneg (le_of_lt hbbH) hscnn) (le_of_lt hbbH)
    have hltX : listMin (vs.map Point.x) < listMax (vs.map Point.x) := by
      have := hbbW
      rw [bbW] at this
      linarith
    have hltY : listMin (vs.map Point.y) < listMax (vs.map Point.y) := by
      have := hbbH
      rw [bbH] at this
      linarith
    rw [hres false]
    rw [getBounds_map_of_affine hvs _ _ _ _ _ (fun v => rfl)]
    simp only [if_pos h0leA, if_pos h0leB]
    rw [getBounds_ne_nil hvs]
    dsimp only
    cases handle with
    | nw =>
      simp only [cornerParams, Option.some.injEq, Prod.mk.injEq] at hp
      obtain ⟨h1, h2, h3⟩ := hp
      subst h1 h2 h3
      simp only [oppositeCorner, eq_self_iff_true, if_true, ne_of_lt hltX,
        ne_of_lt hltY, if_false, hsgnW, hsgnH]
      refine Point.ext ?_ ?_ <;>
        (simp only [bbW, bbH]; field_simp; ring)
    | ne =>
      simp only [cornerParams, Option.some.injEq, Prod.mk.injEq] at hp
      obtain ⟨h1, h2, h3⟩ := hp
      subst h1 h2 h3
      simp only [oppositeCorner, eq_self_iff_true, if_true, ne_of_lt hltX,
        ne_of_lt hltY, if_false, hsgnW, hsgnH]
      refine Point.ext ?_ ?_ <;>
        (simp only [bbW, bbH]; field_simp; ring)
    | se =>
      simp only [cornerParams, Option.some.injEq, Prod.mk.injEq] at hp
      obtain ⟨h1, h2, h3⟩ := hp
      subst h1 h2 h3
      simp only [oppositeCorner, eq_self_iff_true, if_true, ne_of_lt hltX,
        ne_of_lt hltY, if_false, hsgnW, hsgnH]
      refine Point.ext ?_ ?_ <;>
        (simp only [bbW, bbH]; field_simp; ring)
    | sw =>
      simp only [cornerParams, Option.some.injEq, Prod.mk.injEq] at hp
      obtain ⟨h1, h2, h3⟩ := hp
      subst h1 h2 h3
      simp only [oppositeCorner, eq_self_iff_true, if_true, ne_of_lt hltX,
        ne_of_lt hltY, if_false, hsgnW, hsgnH]
      refine Point.ext ?_ ?_ <;>
        (simp only [bbW, bbH]; field_simp; ring)
    | n => simp [cornerParams] at hp
    | s => simp [cornerParams] at hp
    | e => simp [cornerParams] at hp
    | w => simp [cornerParams] at hp
    | center => simp [cornerParams] at hp
    | rotate => simp [cornerParams] at hp

/-- C4 counterexample: aspect-locked corner drags do not satisfy the claim
as stated.  Dragging the nw corner of the unit square (0,0)–(10,10) past
the anchor to (20,20) flips the box, so the corner opposite the handle
(the se corner) moves from (10,10) to (20,20); and dragging it to (10,0)
(newWidth = 0) collapses the width to zero while the height stays
positive, destroying the width:height ratio. -/
theorem cornerDrag_aspect_lock_counterexample :
    oppositeCorner .nw (getBounds (applyCornerDrag .nw ⟨20, 20⟩
        [⟨0, 0⟩, ⟨10, 0⟩, ⟨10, 10⟩, ⟨0, 10⟩] true false))
      ≠ oppositeCorner .nw (getBounds [⟨0, 0⟩, ⟨10, 0⟩, ⟨10, 10⟩, ⟨0, 10⟩]) ∧
    ((getBounds (applyCornerDrag .nw ⟨10, 0⟩
          [⟨0, 0⟩, ⟨10, 0⟩, ⟨10, 10⟩, ⟨0, 10⟩] true false)).max.x
        - (getBounds (applyCornerDrag .nw ⟨10, 0⟩
          [⟨0, 0⟩, ⟨10, 0⟩, ⟨10, 10⟩, ⟨0, 10⟩] true false)).min.x)
      * ((getBounds [⟨0, 0⟩, ⟨10, 0⟩, ⟨10, 10⟩, ⟨0, 10⟩]).max.y
        - (getBounds [⟨0, 0⟩, ⟨10, 0⟩, ⟨10, 10⟩, ⟨0, 10⟩]).min.y)
    ≠ ((getBounds (applyCornerDrag .nw ⟨10, 0⟩
          [⟨0, 0⟩, ⟨10, 0⟩, ⟨10, 10⟩, ⟨0, 10⟩] true false)).max.y
        - (getBounds (applyCornerDrag .nw ⟨10, 0⟩
          [⟨0, 0⟩, ⟨10, 0⟩, ⟨10, 10⟩, ⟨0, 10⟩] true false)).min.y)
      * ((getBounds [⟨0, 0⟩, ⟨10, 0⟩, ⟨10, 10⟩, ⟨0, 10⟩]).max.x
        - (getBounds [⟨0, 0⟩, ⟨10, 0⟩, ⟨10, 10⟩, ⟨0, 10⟩]).min.x) := by
  constructor <;>
    norm_num [applyCornerDrag, cornerParams, oppositeCorner, getBounds, listMin,
      listMax, jsSign]

/-- Witness for C4 at a concrete input: nw corner of the square
(0,0)–(10,10) dragged to (2,4) with aspect lock, non-symmetric. -/
theorem cornerDrag_aspect_lock_witness :
    ((getBounds (applyCornerDrag .nw ⟨2, 4⟩
          [⟨0, 0⟩, ⟨10, 0⟩, ⟨10, 10⟩, ⟨0, 10⟩] true false)).max.x
        - (getBounds (applyCornerDrag .nw ⟨2, 4⟩
          [⟨0, 0⟩, ⟨10, 0⟩, ⟨10, 10⟩, ⟨0, 10⟩] true false)).min.x)
      * ((getBounds [⟨0, 0⟩, ⟨10, 0⟩, ⟨10, 10⟩, ⟨0, 10⟩]).max.y
        - (getBounds [⟨0, 0⟩, ⟨10, 0⟩, ⟨10, 10⟩, ⟨0, 10⟩]).min.y)
    = ((getBounds (applyCornerDrag .nw ⟨2, 4⟩
          [⟨0, 0⟩, ⟨10, 0⟩, ⟨10, 10⟩, ⟨0, 10⟩] true false)).max.y
        - (getBounds (applyCornerDrag .nw ⟨2, 4⟩
          [⟨0, 0⟩, ⟨10, 0⟩, ⟨10, 10⟩, ⟨0, 10⟩] true false)).min.y)
      * ((getBounds [⟨0, 0⟩, ⟨10, 0⟩, ⟨10, 10⟩, ⟨0, 10⟩]).max.x
        - (getBounds [⟨0, 0⟩, ⟨10, 0⟩, ⟨10, 10⟩, ⟨0, 10⟩]).min.x)
    ∧ (false = false → (0 : ℚ) < 8 → (0 : ℚ) < 6 →
        oppositeCorner .nw (getBounds (applyCornerDrag .nw ⟨2, 4⟩
            [⟨0, 0⟩, ⟨10, 0⟩, ⟨10, 10⟩, ⟨0, 10⟩] true false))
          = oppositeCorner .nw (getBounds [⟨0, 0⟩, ⟨10, 0⟩, ⟨10, 10⟩, ⟨0, 10⟩])) :=
  cornerDrag_aspect_lock .nw ⟨2, 4⟩ [⟨0, 0⟩, ⟨10, 0⟩, ⟨10, 10⟩, ⟨0, 10⟩] false
    ⟨10, 10⟩ 8 6
    (by norm_num [getBounds, listMin, listMax])
    (by norm_num [getBounds, listMin, listMax])
    (by norm_num [cornerParams, getBounds, listMin, listMax])
    (by norm_num) (by norm_num)

/-- Door type enumeration from the Door schema. -/
inductive DoorType where
  | single | double
  deriving DecidableEq, Repr

/-- Door record from the schema, restricted to the fields the verified
flow writes.  The source stores `rotation = atan2(dy,dx)·180/π` degrees —
a transcendental of the wall direction; no claim reads the numeric angle,
so the embedding keeps the direction vector `(dx, dy)` the source feeds to
atan2 instead. -/
structure Door where
  id : String
  type : DoorType
  position : Point
  width : ℚ
  wallShapeId : String
  wallSegmentIndex : ℕ
  rotationDir : Point
  deriving DecidableEq, Repr

/-- Result record of findWallSegmentAtPoint (with the same atan2-argument
convention for the rotation as `Door`). -/
structure WallHit where
  shape : FloorplanShape
  segmentIndex : ℕ
  closestPoint : Point
  rotationDir : Point
  deriving DecidableEq, Repr

/-- Edge indices the source's for-loop actually visits: `break` after the
first edge for line shapes, and before the closing edge for freehand
shapes. -/
def wallEdgeIndices (shape : FloorplanShape) : List ℕ :=
  let n := shape.vertices.length
  match shape.type with
  | .line => (List.range n).take 1
  | .freehand => (List.range n).take (n - 1)
  | _ => List.range n

/-- One iteration of the edge loop of findWallSegmentAtPoint
(client/src/lib/door-renderer.ts).  The source computes
`length = Math.sqrt(dx²+dy²)` and compares `dist = Math.sqrt(...)` with
the threshold and the best distance; both comparisons are between
non-negative numbers, so this embedding carries the squared quantities and
compares against `threshold * |threshold|` (the signed square, a strictly
monotone image of the threshold, so the test is equivalent for every
threshold).  `t` is exact because the source divides by
`length * length`. -/
def edgeStep (point : Point) (threshold : ℚ) (shape : FloorplanShape)
    (best : Option (WallHit × ℚ)) (i : ℕ) : Option (WallHit × ℚ) :=
  let n := shape.vertices.length
  let j := (i + 1) % n
  let v1 := shape.vertices.getD i ⟨0, 0⟩
  let v2 := shape.vertices.getD j ⟨0, 0⟩
  let dx := v2.x - v1.x
  let dy := v2.y - v1.y
  let len2 := dx * dx + dy * dy
  if len2 = 0 then best
  else
    let t := max 0 (min 1 (((point.x - v1.x) * dx + (point.y - v1.y) * dy) / len2))
    let closestX := v1.x + t * dx
    let closestY := v1.y + t * dy
    let dist2 := (point.x - closestX) ^ 2 + (point.y - closestY) ^ 2
    if decide (dist2 < threshold * |threshold|)
        && (match best with
            | none => true
            | some (_, bestDist2) => decide (dist2 < bestDist2)) then
      some (⟨shape, i, ⟨closestX, closestY⟩, ⟨dx, dy⟩⟩, dist2)
    else best

/-- Embedding of findWallSegmentAtPoint from
client/src/lib/door-renderer.ts: scan every edge of every wall-eligible
shape (layer house or wall) and return the closest projection within the
threshold, or none. -/
def findWallSegmentAtPoint (shapes : List FloorplanShape) (point : Point)
    (threshold : ℚ) : Option WallHit :=
  (shapes.foldl
    (fun best shape =>
      if shape.layer ≠ "house" ∧ shape.layer ≠ "wall" then best
      else (wallEdgeIndices shape).foldl (edgeStep point threshold shape) best)
    none).map Prod.fst

/-- Door record built from a wall hit, as the door-placement branch of
FloorplanCanvas.handleMouseDown does (`newId` models
crypto.randomUUID()). -/
def mkDoorFromHit (newId : String) (doorType : DoorType) (width : ℚ)
    (hit : WallHit) : Door :=
  { id := newId, type := doorType, position := hit.closestPoint, width := width,
    wallShapeId := hit.shape.id, wallSegmentIndex := hit.segmentIndex,
    rotationDir := hit.rotationDir }

/-- The door-placement flow: FloorplanCanvas.handleMouseDown calls
findWallSegmentAtPoint(shapes, worldPoint, 1.0); on a hit it hands the new
Door to onPlaceDoor, which appends it to the list
(Floorplan.handlePlaceDoor: `setDoors([...doors, door])`); otherwise it
shows the "Invalid Placement" toast and leaves the doors unchanged. -/
def doorPlacementFlow (shapes : List FloorplanShape) (worldPoint : Point)
    (newId : String) (doorType : DoorType) (width : ℚ) (doors : List Door) :
    List Door :=
  match findWallSegmentAtPoint shapes worldPoint 1 with
  | some hit => doors ++ [mkDoorFromHit newId doorType width hit]
  | none => doors

/-- Squared distance from a point to the clamped projection onto the
segment v1v2 — the square of the quantity the source's wall finder
compares with the threshold.  (For a zero-length segment the clamp makes
this the squared distance to v1; the finder skips such edges anyway.) -/
def edgeDist2 (point v1 v2 : Point) : ℚ :=
  let dx := v2.x - v1.x
  let dy := v2.y - v1.y
  let len2 := dx * dx + dy * dy
  let t := max 0 (min 1 (((point.x - v1.x) * dx + (point.y - v1.y) * dy) / len2))
  (point.x - (v1.x + t * dx)) ^ 2 + (point.y - (v1.y + t * dy)) ^ 2

lemma wallEdgeIndices_lt (s : FloorplanShape) :
    ∀ i ∈ wallEdgeIndices s, i < s.vertices.length := by
  intro i hi
  apply List.mem_range.mp
  cases h : s.type <;> simp only [wallEdgeIndices, h] at hi <;>
    first
      | exact List.take_subset _ _ hi
      | exact hi

lemma edgeFold_none (p : Point) (threshold : ℚ) (s : FloorplanShape)
    (hthr : 0 ≤ threshold)
    (hfar : ∀ i, i < s.vertices.length →
      threshold * threshold <
        edgeDist2 p (s.vertices.getD i ⟨0, 0⟩)
          (s.vertices.getD ((i + 1) % s.vertices.length) ⟨0, 0⟩)) :
    ∀ l : List ℕ, (∀ i ∈ l, i < s.vertices.length) →
      l.foldl (edgeStep p threshold s) none = none := by
  intro l
  induction l with
  | nil => intro _; rfl
  | cons a l ih =>
    intro hmem
    have ha : a < s.vertices.length := hmem a (List.mem_cons_self a l)
    have hstep : edgeStep p threshold s none a = none := by
      simp only [edgeStep]
      split
      · rfl
      · rw [if_neg]
        simp only [Bool.and_eq_true, decide_eq_true_eq]
        rintro ⟨hlt, -⟩
        have habs : |threshold| = threshold := abs_of_nonneg hthr
        rw [habs] at hlt
        have := hfar a ha
        rw [edgeDist2] at this
        exact absurd hlt (not_lt_of_gt this)
    rw [List.foldl_cons, hstep]
    exact ih fun i hi => hmem i (List.mem_cons_of_mem a hi)

/-- C7: if the query point is farther than the threshold from every edge
of every wall-eligible shape (squared distances compared, threshold ≥ 0),
the wall finder returns none and — at the flow's fixed threshold 1 — the
door-placement flow leaves the door list unchanged; and unconditionally, a
Door is appended only when the finder returns a match (otherwise the list
is returned untouched). -/
theorem far_point_places_no_door (shapes : List FloorplanShape) (p : Point)
    (threshold : ℚ) (doors : List Door) (newId : String) (dt : DoorType) (w : ℚ)
    (hthr : 0 ≤ threshold)
    (hfar : ∀ s ∈ shapes, (s.layer = "house" ∨ s.layer = "wall") →
      ∀ i, i < s.vertices.length →
        threshold * threshold <
          edgeDist2 p (s.vertices.getD i ⟨0, 0⟩)
            (s.vertices.getD ((i + 1) % s.vertices.length) ⟨0, 0⟩)) :
    findWallSegmentAtPoint shapes p threshold = none ∧
    (threshold = 1 → doorPlacementFlow shapes p newId dt w doors = doors) ∧
    (doorPlacementFlow shapes p newId dt w doors = doors ∨
      ∃ hit, findWallSegmentAtPoint shapes p 1 = some hit ∧
        doorPlacementFlow shapes p newId dt w doors
          = doors ++ [mkDoorFromHit newId dt w hit]) := by
  have hfind : findWallSegmentAtPoint shapes p threshold = none := by
    unfold findWallSegmentAtPoint
    have hfold : shapes.foldl
        (fun best shape =>
          if shape.layer ≠ "house" ∧ shape.layer ≠ "wall" then best
          else (wallEdgeIndices shape).foldl (edgeStep p threshold shape) best)
        none = none := by
      induction shapes with
      | nil => rfl
      | cons s rest ih =>
        rw [List.foldl_cons]
        have hstep : (if s.layer ≠ "house" ∧ s.layer ≠ "wall" then none
            else (wallEdgeIndices s).foldl (edgeStep p threshold s) none)
            = (none : Option (WallHit × ℚ)) := by
          split
          · rfl
          · rename_i hel
            push_neg at hel
            have hel2 : s.layer = "house" ∨ s.layer = "wall" := by
              by_cases hcase : s.layer = "house"
              · exact Or.inl hcase
              · exact Or.inr (hel hcase)
            refine edgeFold_none p threshold s hthr
              (hfar s (List.mem_cons_self s rest) hel2) _ ?_
            exact wallEdgeIndices_lt s
        rw [hstep]
        exact ih fun s2 hs2 => hfar s2 (List.mem_cons_of_mem s hs2)
    rw [hfold]
    rfl
  refine ⟨hfind, ?_, ?_⟩
  · intro h1
    subst h1
    unfold doorPlacementFlow
    rw [hfind]
  · unfold doorPlacementFlow
    cases hf : findWallSegmentAtPoint shapes p 1 with
    | none => exact Or.inl rfl
    | some hit => exact Or.inr ⟨hit, rfl, rfl⟩

/-- Witness for C7 at a concrete input: one house square (0,0)–(10,10) and
the query point (20,0), at least 10 ft from every edge, threshold 1. -/
theorem far_point_places_no_door_witness :
    findWallSegmentAtPoint [⟨"s1", .rectangle, [⟨0, 0⟩, ⟨10, 0⟩, ⟨10, 10⟩, ⟨0, 10⟩], "house"⟩]
      ⟨20, 0⟩ 1 = none ∧
    ((1 : ℚ) = 1 → doorPlacementFlow
      [⟨"s1", .rectangle, [⟨0, 0⟩, ⟨10, 0⟩, ⟨10, 10⟩, ⟨0, 10⟩], "house"⟩]
      ⟨20, 0⟩ "d1" .single 3 [] = []) ∧
    (doorPlacementFlow
      [⟨"s1", .rectangle, [⟨0, 0⟩, ⟨10, 0⟩, ⟨10, 10⟩, ⟨0, 10⟩], "house"⟩]
      ⟨20, 0⟩ "d1" .single 3 [] = [] ∨
      ∃ hit, findWallSegmentAtPoint
          [⟨"s1", .rectangle, [⟨0, 0⟩, ⟨10, 0⟩, ⟨10, 10⟩, ⟨0, 10⟩], "house"⟩]
          ⟨20, 0⟩ 1 = some hit ∧
        doorPlacementFlow
          [⟨"s1", .rectangle, [⟨0, 0⟩, ⟨10, 0⟩, ⟨10, 10⟩, ⟨0, 10⟩], "house"⟩]
          ⟨20, 0⟩ "d1" .single 3 []
          = [] ++ [mkDoorFromHit "d1" .single 3 hit]) :=
  far_point_places_no_door
    [⟨"s1", .rectangle, [⟨0, 0⟩, ⟨10, 0⟩, ⟨10, 10⟩, ⟨0, 10⟩], "house"⟩]
    ⟨20, 0⟩ 1 [] "d1" .single 3 (by norm_num)
    (by
      intro s hs hel i hi
      rw [List.mem_singleton] at hs
      subst hs
      simp only [List.length_cons, List.length_nil] at hi
      interval_cases i <;> norm_num [edgeDist2, List.getD])

/-- Embedding of isRectilinear from client/src/lib/roof-renderer.ts: every
consecutive edge vector is axis-aligned within the 0.01 tolerance.  In the
source the previous index is `(i - 1 + n) % n`; with natural-number
subtraction this is written `((i + n) - 1) % n`, the same value for every
`i < n`. -/
def isRectilinear (vertices : List Point) : Bool :=
  if vertices.length < 4 then false
  else
    let n := vertices.length
    (List.range n).all fun i =>
      let prev := vertices.getD (((i + n) - 1) % n) ⟨0, 0⟩
      let curr := vertices.getD i ⟨0, 0⟩
      let next := vertices.getD ((i + 1) % n) ⟨0, 0⟩
      let isHorizontal1 := decide (|curr.y - prev.y| < 1/100)
      let isVertical1 := decide (|curr.x - prev.x| < 1/100)
      let isHorizontal2 := decide (|next.y - curr.y| < 1/100)
      let isVertical2 := decide (|next.x - curr.x| < 1/100)
      (isHorizontal1 || isVertical1) && (isHorizontal2 || isVertical2)

/-- Embedding of isPointInPolygon from client/src/lib/roof-renderer.ts:
standard ray-casting parity loop (`for (i = 0, j = n - 1; i < n; j = i++)`). -/
def isPointInPolygon (point : Point) (vertices : List Point) : Bool :=
  let n := vertices.length
  (List.range n).foldl
    (fun inside i =>
      let j := if i = 0 then n - 1 else i - 1
      let vi := vertices.getD i ⟨0, 0⟩
      let vj := vertices.getD j ⟨0, 0⟩
      let intersect :=
        (decide (vi.y > point.y) != decide (vj.y > point.y))
          && decide (point.x < (vj.x - vi.x) * (point.y - vi.y) / (vj.y - vi.y) + vi.x)
      if intersect then !inside else inside)
    false

/-- Axis-aligned rectangle record of the roof decomposition. -/
structure Rect where
  minX : ℚ
  minY : ℚ
  maxX : ℚ
  maxY : ℚ
  deriving DecidableEq, Repr

/-- First-occurrence deduplication, modelling
`Array.from(new Set(...))` (JavaScript Sets preserve insertion order;
the caller sorts the result immediately, so only the set of values
matters). -/
def jsSetDedup : List ℚ → List ℚ
  | [] => []
  | x :: xs => x :: jsSetDedup (xs.filter (· ≠ x))
termination_by l => l.length
decreasing_by
  simp only [List.length_cons]
  exact Nat.lt_succ_of_le (List.length_filter_le _ _)

/-- One `j` iteration of the merge loop of mergeAdjacentRectangles
(client/src/lib/roof-renderer.ts): try to merge `other = rects[j]` into
the current rectangle, first horizontally (matching y extents), then
vertically against the possibly-updated current, exactly as the two
sequential if-blocks of the source. -/
def tryMergeJ (rects : List Rect) (i : ℕ) (st : Rect × List ℕ × Bool) (j : ℕ) :
    Rect × List ℕ × Bool :=
  if i = j ∨ j ∈ st.2.1 then st
  else
    let other := rects.getD j ⟨0, 0, 0, 0⟩
    let st2 :=
      if |st.1.minY - other.minY| < 1/100 ∧ |st.1.maxY - other.maxY| < 1/100 then
        if |st.1.maxX - other.minX| < 1/100 then
          ({ st.1 with maxX := other.maxX }, j :: st.2.1, true)
        else if |st.1.minX - other.maxX| < 1/100 then
          ({ st.1 with minX := other.minX }, j :: st.2.1, true)
        else st
      else st
    if |st2.1.minX - other.minX| < 1/100 ∧ |st2.1.maxX - other.maxX| < 1/100 then
      if |st2.1.maxY - other.minY| < 1/100 then
        ({ st2.1 with maxY := other.maxY }, j :: st2.2.1, true)
      else if |st2.1.minY - other.maxY| < 1/100 then
        ({ st2.1 with minY := other.minY }, j :: st2.2.1, true)
      else st2
    else st2

/-- One full pass of the inner `while (didMerge)` body: a `for j` sweep
over all rectangles. -/
def innerPass (rects : List Rect) (i : ℕ) (current : Rect) (used : List ℕ) :
    Rect × List ℕ × Bool :=
  (List.range rects.length).foldl (tryMergeJ rects i) (current, used, false)

/-- The `while (didMerge)` loop.  Each continuing pass marks at least one
previously unused index as used, so `rects.length + 1` passes always
suffice (the same argument shows the source loop terminates); the fuel is
never exhausted when called with that bound. -/
def whileMerge (fuel : ℕ) (rects : List Rect) (i : ℕ) (current : Rect)
    (used : List ℕ) : Rect × List ℕ :=
  match fuel with
  | 0 => (current, used)
  | fuel + 1 =>
    let st := innerPass rects i current used
    if st.2.2 then whileMerge fuel rects i st.1 st.2.1 else (st.1, st.2.1)

/-- Embedding of mergeAdjacentRectangles from
client/src/lib/roof-renderer.ts: the outer `for i` loop, skipping used
indices, running the merge-while loop from `rects[i]`, and pushing the
result. -/
def mergeAdjacentRectangles (rects : List Rect) : List Rect :=
  if rects.length ≤ 1 then rects
  else
    ((List.range rects.length).foldl
      (fun (st : List Rect × List ℕ) i =>
        if i ∈ st.2 then st
        else
          let cu := whileMerge (rects.length + 1) rects i
            (rects.getD i ⟨0, 0, 0, 0⟩) st.2
          (st.1 ++ [cu.1], i :: cu.2))
      ([], [])).1

/-- Embedding of decomposeRectilinearPolygon from
client/src/lib/roof-renderer.ts: bounding box fallback for
non-rectilinear input, otherwise the coordinate grid of cells whose
centre lies inside the polygon, merged into maximal rectangles. -/
def decomposeRectilinearPolygon (vertices : List Point) : List Rect :=
  if vertices.length < 4 then []
  else if !isRectilinear vertices then
    [⟨(getBounds vertices).min.x, (getBounds vertices).min.y,
      (getBounds vertices).max.x, (getBounds vertices).max.y⟩]
  else
    let xCoords := List.insertionSort (· ≤ ·) (jsSetDedup (vertices.map Point.x))
    let yCoords := List.insertionSort (· ≤ ·) (jsSetDedup (vertices.map Point.y))
    if xCoords.length < 2 ∨ yCoords.length < 2 then
      [⟨(getBounds vertices).min.x, (getBounds vertices).min.y,
        (getBounds vertices).max.x, (getBounds vertices).max.y⟩]
    else
      let cells := (List.range (xCoords.length - 1)).flatMap fun i =>
        (List.range (yCoords.length - 1)).filterMap fun j =>
          let rect : Rect := ⟨xCoords.getD i 0, yCoords.getD j 0,
            xCoords.getD (i + 1) 0, yCoords.getD (j + 1) 0⟩
          let rectCenter : Point := ⟨(rect.minX + rect.maxX) / 2,
            (rect.minY + rect.maxY) / 2⟩
          if isPointInPolygon rectCenter vertices then some rect else none
      mergeAdjacentRectangles cells

/-- RoofSection record (derived rendering geometry). -/
structure RoofSection where
  bounds : Bounds
  center : Point
  width : ℚ
  height : ℚ
  deriving DecidableEq, Repr

/-- Embedding of createSection from client/src/lib/roof-renderer.ts. -/
def createSection (rect : Rect) : RoofSection :=
  let width := rect.maxX - rect.minX
  let height := rect.maxY - rect.minY
  { bounds := ⟨⟨rect.minX, rect.minY⟩, ⟨rect.maxX, rect.maxY⟩⟩
    center := ⟨rect.minX + width / 2, rect.minY + height / 2⟩
    width := width
    height := height }

/-- Embedding of detectRoofSections from client/src/lib/roof-renderer.ts. -/
def detectRoofSections (shape : FloorplanShape) : List RoofSection :=
  if shape.type ≠ .rectangle ∧ shape.type ≠ .polygon then []
  else if shape.vertices.length < 3 then []
  else
    (decomposeRectilinearPolygon shape.vertices).map createSection

/-- C8 counterexample: a 3-vertex non-rectilinear polygon (a triangle) is
a closed shape with at least 3 vertices, but detectRoofSections returns no
section at all — decomposeRectilinearPolygon bails out for fewer than 4
vertices before reaching the bounding-box fallback — rather than the one
bounding-box section the claim requires. -/
theorem detectRoofSections_triangle_empty :
    detectRoofSections ⟨"t", .polygon, [⟨0, 0⟩, ⟨4, 0⟩, ⟨0, 3⟩], "house"⟩ = [] ∧
    detectRoofSections ⟨"t", .polygon, [⟨0, 0⟩, ⟨4, 0⟩, ⟨0, 3⟩], "house"⟩
      ≠ [createSection ⟨0, 0, 4, 3⟩] := by
  norm_num [detectRoofSections, decomposeRectilinearPolygon]

/-- C8 (amended): for every closed shape (rectangle or polygon type) with
at least four vertices that is not rectilinear, detectRoofSections returns
exactly one section, whose bounds are the shape's axis-aligned bounding
box.  (A 3-vertex shape instead yields the empty list, as the
counterexample shows.) -/
theorem detectRoofSections_nonRectilinear (shape : FloorplanShape)
    (htype : shape.type = .rectangle ∨ shape.type = .polygon)
    (hlen : 4 ≤ shape.vertices.length)
    (hrect : isRectilinear shape.vertices = false) :
    detectRoofSections shape =
      [createSection ⟨(getBounds shape.vertices).min.x, (getBounds shape.vertices).min.y,
        (getBounds shape.vertices).max.x, (getBounds shape.vertices).max.y⟩] := by
  unfold detectRoofSections
  rw [if_neg, if_neg (by omega)]
  · unfold decomposeRectilinearPolygon
    rw [if_neg (by omega), if_pos (by rw [hrect]; rfl)]
    rfl
  · rcases htype with h | h <;> simp [h]

/-- Witness for C8 at a concrete input: the non-rectilinear quadrilateral
(0,0), (4,0), (5,3), (0,3). -/
theorem detectRoofSections_nonRectilinear_witness :
    detectRoofSections ⟨"q", .polygon, [⟨0, 0⟩, ⟨4, 0⟩, ⟨5, 3⟩, ⟨0, 3⟩], "house"⟩ =
      [createSection
        ⟨(getBounds [⟨0, 0⟩, ⟨4, 0⟩, ⟨5, 3⟩, ⟨0, 3⟩]).min.x,
         (getBounds [⟨0, 0⟩, ⟨4, 0⟩, ⟨5, 3⟩, ⟨0, 3⟩]).min.y,
         (getBounds [⟨0, 0⟩, ⟨4, 0⟩, ⟨5, 3⟩, ⟨0, 3⟩]).max.x,
         (getBounds [⟨0, 0⟩, ⟨4, 0⟩, ⟨5, 3⟩, ⟨0, 3⟩]).max.y⟩] :=
  detectRoofSections_nonRectilinear ⟨"q", .polygon, [⟨0, 0⟩, ⟨4, 0⟩, ⟨5, 3⟩, ⟨0, 3⟩], "house"⟩
    (Or.inr rfl) (by norm_num)
    (by
      norm_num [isRectilinear, List.getD]
      exact ⟨1, by norm_num, by norm_num⟩)

/-- Canonical 6-vertex axis-aligned L-shaped polygon of claim C3: x
coordinates a < b < c, y coordinates d < e < f, covering
[a,c]×[d,e] ∪ [a,b]×[e,f] (the notch is the (c,f) quadrant); the other
seven orientations are its reflections/rotations. -/
def lshapeVertices (a b c d e f : ℚ) : List Point :=
  [⟨a, d⟩, ⟨c, d⟩, ⟨c, e⟩, ⟨b, e⟩, ⟨b, f⟩, ⟨a, f⟩]

lemma lshape_xcoords (a b c d e f : ℚ) (hab : a < b) (hbc : b < c) :
    List.insertionSort (· ≤ ·) (jsSetDedup ((lshapeVertices a b c d e f).map Point.x))
      = [a, b, c] := by
  have h1 : ¬(c = a) := by intro h; linarith
  have h2 : ¬(b = a) := by intro h; linarith
  have h3 : ¬(b = c) := by intro h; linarith
  have h4 : ¬(c ≤ b) := by linarith
  have h5 : a ≤ b := le_of_lt hab
  have h6 : a ≤ c := by linarith
  simp [lshapeVertices, jsSetDedup, List.filter_cons, h1, h2, h3,
    List.insertionSort, List.orderedInsert, h4, h5, h6]

lemma lshape_ycoords (a b c d e f : ℚ) (hde : d < e) (hef : e < f) :
    List.insertionSort (· ≤ ·) (jsSetDedup ((lshapeVertices a b c d e f).map Point.y))
      = [d, e, f] := by
  have h1 : ¬(e = d) := by intro h; linarith
  have h2 : ¬(f = d) := by intro h; linarith
  have h3 : ¬(f = e) := by intro h; linarith
  have h4 : d ≤ e := le_of_lt hde
  have h5 : d ≤ f := by linarith
  have h6 : e ≤ f := le_of_lt hef
  simp [lshapeVertices, jsSetDedup, List.filter_cons, h1, h2, h3,
    List.insertionSort, List.orderedInsert, h4, h5, h6]

lemma lshape_isRectilinear (a b c d e f : ℚ) :
    isRectilinear (lshapeVertices a b c d e f) = true := by
  rw [isRectilinear]
  rw [if_neg (by norm_num [lshapeVertices])]
  simp only [List.all_eq_true]
  intro i hi
  fin_cases hi <;>
    norm_num [lshapeVertices, List.getD, sub_self, abs_zero]

lemma lshape_raycast1 (a b c d e f : ℚ) (hab : a < b) (hbc : b < c)
    (hde : d < e) (hef : e < f) :
    isPointInPolygon ⟨(a + b) / 2, (d + e) / 2⟩ (lshapeVertices a b c d e f) = true := by
  have hd : ¬((d : ℚ) > (d + e) / 2) := by linarith
  have hf : (f : ℚ) > (d + e) / 2 := by linarith
  have he : (e : ℚ) > (d + e) / 2 := by linarith
  have hx05 : ¬((a + b) / 2 < (a - a) * ((d + e) / 2 - d) / (f - d) + a) := by
    rw [show (a - a) * ((d + e) / 2 - d) / (f - d) + a = a from by ring]
    linarith
  have hx21 : (a + b) / 2 < (c - c) * ((d + e) / 2 - e) / (d - e) + c := by
    rw [show (c - c) * ((d + e) / 2 - e) / (d - e) + c = c from by ring]
    linarith
  simp only [isPointInPolygon]
  rw [show List.range (lshapeVertices a b c d e f).length = [0, 1, 2, 3, 4, 5] from rfl]
  simp only [lshapeVertices, List.foldl_cons, List.foldl_nil]
  norm_num [List.getD, hd, hf, he, hx05, hx21]
  split_ifs <;> linarith

lemma lshape_raycast2 (a b c d e f : ℚ) (hab : a < b) (hbc : b < c)
    (hde : d < e) (hef : e < f) :
    isPointInPolygon ⟨(a + b) / 2, (e + f) / 2⟩ (lshapeVertices a b c d e f) = true := by
  have hd : ¬((d : ℚ) > (e + f) / 2) := by linarith
  have he : ¬((e : ℚ) > (e + f) / 2) := by linarith
  have hf : (f : ℚ) > (e + f) / 2 := by linarith
  simp only [isPointInPolygon]
  rw [show List.range (lshapeVertices a b c d e f).length = [0, 1, 2, 3, 4, 5] from rfl]
  simp only [lshapeVertices, List.foldl_cons, List.foldl_nil]
  norm_num [List.getD, hd, he, hf]
  split_ifs <;> linarith

lemma lshape_raycast3 (a b c d e f : ℚ) (hab : a < b) (hbc : b < c)
    (hde : d < e) (hef : e < f) :
    isPointInPolygon ⟨(b + c) / 2, (d + e) / 2⟩ (lshapeVertices a b c d e f) = true := by
  have hd : ¬((d : ℚ) > (d + e) / 2) := by linarith
  have he : (e : ℚ) > (d + e) / 2 := by linarith
  have hf : (f : ℚ) > (d + e) / 2 := by linarith
  simp only [isPointInPolygon]
  rw [show List.range (lshapeVertices a b c d e f).length = [0, 1, 2, 3, 4, 5] from rfl]
  simp only [lshapeVertices, List.foldl_cons, List.foldl_nil]
  norm_num [List.getD, hd, he, hf]
  split_ifs <;> linarith

lemma lshape_raycast4 (a b c d e f : ℚ) (hab : a < b) (hbc : b < c)
    (hde : d < e) (hef : e < f) :
    isPointInPolygon ⟨(b + c) / 2, (e + f) / 2⟩ (lshapeVertices a b c d e f) = false := by
  have hd : ¬((d : ℚ) > (e + f) / 2) := by linarith
  have he : ¬((e : ℚ) > (e + f) / 2) := by linarith
  have hf : (f : ℚ) > (e + f) / 2 := by linarith
  simp only [isPointInPolygon]
  rw [show List.range (lshapeVertices a b c d e f).length = [0, 1, 2, 3, 4, 5] from rfl]
  simp only [lshapeVertices, List.foldl_cons, List.foldl_nil]
  norm_num [List.getD, hd, he, hf]
  split_ifs <;> linarith

lemma lshape_merge (a b c d e f : ℚ)
    (hab : a + 1/100 ≤ b) (hbc : b + 1/100 ≤ c)
    (hde : d + 1/100 ≤ e) (hef : e + 1/100 ≤ f) :
    mergeAdjacentRectangles [⟨a, d, b, e⟩, ⟨a, e, b, f⟩, ⟨b, d, c, e⟩]
      = [⟨a, d, b, f⟩, ⟨b, d, c, e⟩] := by
  have h1 : ¬(|d - e| < 1/100) := by
    rw [show |d - e| = e - d from by rw [abs_sub_comm]; exact abs_of_nonneg (by linarith)]
    linarith
  have h2 : ¬(|f - e| < 1/100) := by
    rw [show |f - e| = f - e from abs_of_nonneg (by linarith)]
    linarith
  have h3 : ¬(|a - b| < 1/100) := by
    rw [show |a - b| = b - a from by rw [abs_sub_comm]; exact abs_of_nonneg (by linarith)]
    linarith
  norm_num [mergeAdjacentRectangles, whileMerge, innerPass, tryMergeJ, List.getD,
    h1, h2, h3, sub_self, abs_zero, show List.range 3 = [0, 1, 2] from rfl,
    List.foldl_cons, List.foldl_nil]

lemma lshape_decompose (a b c d e f : ℚ)
    (hab : a + 1/100 ≤ b) (hbc : b + 1/100 ≤ c)
    (hde : d + 1/100 ≤ e) (hef : e + 1/100 ≤ f) :
    decomposeRectilinearPolygon (lshapeVertices a b c d e f)
      = [⟨a, d, b, f⟩, ⟨b, d, c, e⟩] := by
  have hab2 : a < b := by linarith
  have hbc2 : b < c := by linarith
  have hde2 : d < e := by linarith
  have hef2 : e < f := by linarith
  norm_num [decomposeRectilinearPolygon, lshape_isRectilinear,
    lshape_xcoords a b c d e f hab2 hbc2, lshape_ycoords a b c d e f hde2 hef2,
    List.getD, show List.range 2 = [0, 1] from rfl,
    show (lshapeVertices a b c d e f).length = 6 from rfl,
    List.filterMap_cons, List.filterMap_nil,
    lshape_raycast1 a b c d e f hab2 hbc2 hde2 hef2,
    lshape_raycast2 a b c d e f hab2 hbc2 hde2 hef2,
    lshape_raycast3 a b c d e f hab2 hbc2 hde2 hef2,
    lshape_raycast4 a b c d e f hab2 hbc2 hde2 hef2,
    lshape_merge a b c d e f hab hbc hde hef]

lemma lshape_area (a b c d e f : ℚ) (hab : a < b) (hbc : b < c)
    (hde : d < e) (hef : e < f) :
    polygonArea (lshapeVertices a b c d e f)
      = (b - a) * (f - d) + (c - b) * (e - d) := by
  norm_num [polygonArea, lshapeVertices, List.getD,
    show List.range 6 = [0, 1, 2, 3, 4, 5] from rfl, List.foldl_cons, List.foldl_nil]
  rw [abs_of_nonneg]
  · ring
  · nlinarith [mul_pos (sub_pos.mpr hab) (sub_pos.mpr (lt_trans hde hef)),
      mul_pos (sub_pos.mpr hbc) (sub_pos.mpr hde)]

/-- C3: a 6-vertex axis-aligned rectilinear L-shaped polygon (canonical
orientation, coordinates a < b < c and d < e < f with the code's 0.01
coordinate tolerance respected) yields exactly two merged rectangular roof
sections, the vertical arm [a,b]×[d,f] and the remaining base [b,c]×[d,e],
and the sum of their areas equals the polygon's shoelace area. -/
theorem detectRoofSections_lshape (a b c d e f : ℚ)
    (hab : a + 1/100 ≤ b) (hbc : b + 1/100 ≤ c)
    (hde : d + 1/100 ≤ e) (hef : e + 1/100 ≤ f) :
    detectRoofSections ⟨"L", .polygon, lshapeVertices a b c d e f, "house"⟩
      = [createSection ⟨a, d, b, f⟩, createSection ⟨b, d, c, e⟩] ∧
    (createSection ⟨a, d, b, f⟩).width * (createSection ⟨a, d, b, f⟩).height
      + (createSection ⟨b, d, c, e⟩).width * (createSection ⟨b, d, c, e⟩).height
      = polygonArea (lshapeVertices a b c d e f) := by
  have hab2 : a < b := by linarith
  have hbc2 : b < c := by linarith
  have hde2 : d < e := by linarith
  have hef2 : e < f := by linarith
  constructor
  · simp only [detectRoofSections]
    rw [if_neg (by norm_num), if_neg (by norm_num [lshapeVertices])]
    rw [lshape_decompose a b c d e f hab hbc hde hef]
    rfl
  · rw [lshape_area a b c d e f hab2 hbc2 hde2 hef2]
    simp only [createSection]

/-- Witness for C3 at a concrete input: the L-shape with x coordinates
0 < 1 < 3 and y coordinates 0 < 2 < 5 (area 5 + 4 = 9). -/
theorem detectRoofSections_lshape_witness :
    detectRoofSections ⟨"L", .polygon, lshapeVertices 0 1 3 0 2 5, "house"⟩
      = [createSection ⟨0, 0, 1, 5⟩, createSection ⟨1, 0, 3, 2⟩] ∧
    (createSection ⟨0, 0, 1, 5⟩).width * (createSection ⟨0, 0, 1, 5⟩).height
      + (createSection ⟨1, 0, 3, 2⟩).width * (createSection ⟨1, 0, 3, 2⟩).height
      = polygonArea (lshapeVertices 0 1 3 0 2 5) :=
  detectRoofSections_lshape 0 1 3 0 2 5 (by norm_num) (by norm_num)
    (by norm_num) (by norm_num)

/-- Squared perpendicular distance of perpendicularDistance
(client/src/lib/coordinate-math.ts): the source returns
`|num| / sqrt(dx²+dy²)` (or the plain distance for a degenerate chord);
simplifyPolyline only ever compares these distances with each other and
with epsilon, all non-negative quantities, so the embedding carries the
square `num² / (dx²+dy²)`. -/
def perpDist2 (point lineStart lineEnd : Point) : ℚ :=
  let dx := lineEnd.x - lineStart.x
  let dy := lineEnd.y - lineStart.y
  if dx = 0 ∧ dy = 0 then
    (point.x - lineStart.x) ^ 2 + (point.y - lineStart.y) ^ 2
  else
    (dy * point.x - dx * point.y + lineEnd.x * lineStart.y - lineEnd.y * lineStart.x) ^ 2
      / (dx * dx + dy * dy)

/-- One iteration of simplifyPolyline's farthest-point scan: update the
running (maxDistance, maxIndex) on a strictly greater distance. -/
def scanStep (f : ℕ → ℚ) (st : ℚ × ℕ) (i : ℕ) : ℚ × ℕ :=
  if f i > st.1 then (f i, i) else st

/-- simplifyPolyline's scan over the interior indices 1 … n-2, starting
from maxDistance = 0, maxIndex = 0. -/
def scanMax (f : ℕ → ℚ) (n : ℕ) : ℚ × ℕ :=
  (List.range' 1 (n - 2)).foldl (scanStep f) (0, 0)

/-- Embedding of simplifyPolyline from client/src/lib/coordinate-math.ts
(recursive Douglas-Peucker), with an explicit recursion-depth fuel: the
source recursion is not total — when maxDistance > epsilon with
maxIndex = 0 (possible only for epsilon < 0 on a degenerate scan) the
right recursive call receives the whole input again and the JavaScript
overflows the stack, which this model renders as `none`.  Distances are
compared squared (see perpDist2), so the source's `maxDistance > epsilon`
becomes `maxDistance² > epsilon·|epsilon|`, an equivalent test for every
epsilon since t ↦ t·|t| is strictly monotone and matches t ↦ t² on the
non-negative reals. -/
def simplifyFuel : ℕ → List Point → ℚ → Option (List Point)
  | 0, _, _ => none
  | fuel + 1, points, epsilon =>
    if points.length ≤ 2 then some points
    else
      let p0 := points.getD 0 ⟨0, 0⟩
      let pn := points.getD (points.length - 1) ⟨0, 0⟩
      let st := scanMax (fun i => perpDist2 (points.getD i ⟨0, 0⟩) p0 pn) points.length
      if st.1 > epsilon * |epsilon| then
        match simplifyFuel fuel (points.take (st.2 + 1)) epsilon,
              simplifyFuel fuel (points.drop st.2) epsilon with
        | some left, some right => some (left.dropLast ++ right)
        | _, _ => none
      else some [p0, pn]

/-- Unfolding equation for simplifyFuel at a positive fuel, with the source's
let-bindings for firstPoint, lastPoint and the scan result expanded in place
(a definitional restatement, proved by rfl through the let-bindings). -/
lemma simplifyFuel_succ (fuel : ℕ) (points : List Point) (epsilon : ℚ) :
    simplifyFuel (fuel + 1) points epsilon =
      if points.length ≤ 2 then some points
      else
        if (scanMax (fun i => perpDist2 (points.getD i ⟨0, 0⟩) (points.getD 0 ⟨0, 0⟩)
              (points.getD (points.length - 1) ⟨0, 0⟩)) points.length).1
            > epsilon * |epsilon| then
          match simplifyFuel fuel
              (points.take ((scanMax (fun i => perpDist2 (points.getD i ⟨0, 0⟩)
                  (points.getD 0 ⟨0, 0⟩) (points.getD (points.length - 1) ⟨0, 0⟩))
                points.length).2 + 1)) epsilon,
            simplifyFuel fuel
              (points.drop (scanMax (fun i => perpDist2 (points.getD i ⟨0, 0⟩)
                  (points.getD 0 ⟨0, 0⟩) (points.getD (points.length - 1) ⟨0, 0⟩))
                points.length).2) epsilon with
          | some left, some right => some (left.dropLast ++ right)
          | _, _ => none
        else some [points.getD 0 ⟨0, 0⟩, points.getD (points.length - 1) ⟨0, 0⟩] := by
  rw [simplifyFuel]

/-- The source simplifyPolyline, with the fuel instantiated at
`length + 1`, which suffices whenever the recursion terminates (for
epsilon ≥ 0 every split has 1 ≤ maxIndex ≤ n-2, so both slices are
strictly shorter). -/
def simplifyPolyline (points : List Point) (epsilon : ℚ) : Option (List Point) :=
  simplifyFuel (points.length + 1) points epsilon

/-- The call diverges: no recursion depth suffices (the JavaScript
original overflows the stack). -/
def simplifyDiverges (points : List Point) (epsilon : ℚ) : Prop :=
  ∀ fuel, simplifyFuel fuel points epsilon = none

/-- C9 counterexample: with a negative epsilon on three collinear points
the maxDistance is exactly 0 > epsilon while maxIndex stays 0, so the
right recursive call receives the whole list again and simplifyPolyline
never returns (stack overflow in the source; `none` at every fuel in the
model) — so it is not idempotent for every epsilon, only for epsilon ≥ 0. -/
theorem simplifyPolyline_neg_epsilon_diverges :
    simplifyDiverges [⟨0, 0⟩, ⟨1, 0⟩, ⟨2, 0⟩] (-1) := by
  intro fuel
  induction fuel with
  | zero => rfl
  | succ fuel ih =>
    rw [simplifyFuel]
    rw [if_neg (by norm_num)]
    rw [if_pos (by norm_num [scanMax, scanStep, perpDist2, List.getD,
      show List.range' 1 1 = [1] from rfl])]
    rw [show scanMax (fun i =>
          perpDist2 (([⟨0, 0⟩, ⟨1, 0⟩, ⟨2, 0⟩] : List Point).getD i ⟨0, 0⟩)
            (([⟨0, 0⟩, ⟨1, 0⟩, ⟨2, 0⟩] : List Point).getD 0 ⟨0, 0⟩)
            (([⟨0, 0⟩, ⟨1, 0⟩, ⟨2, 0⟩] : List Point).getD
              (([⟨0, 0⟩, ⟨1, 0⟩, ⟨2, 0⟩] : List Point).length - 1) ⟨0, 0⟩))
          ([⟨0, 0⟩, ⟨1, 0⟩, ⟨2, 0⟩] : List Point).length = (0, 0) from by
        norm_num [scanMax, scanStep, perpDist2, List.getD,
          show List.range' 1 1 = [1] from rfl]]
    simp only [List.drop_zero, ih]
    cases simplifyFuel fuel
        (List.take (0 + 1) [(⟨0, 0⟩ : Point), ⟨1, 0⟩, ⟨2, 0⟩]) (-1) <;> rfl

lemma scan_go (f : ℕ → ℚ) :
    ∀ (l : List ℕ) (md : ℚ) (mi : ℕ),
      l.Sorted (· < ·) → (∀ i ∈ l, mi < i) →
      md ≤ (l.foldl (scanStep f) (md, mi)).1 ∧
      (∀ i ∈ l, f i ≤ (l.foldl (scanStep f) (md, mi)).1) ∧
      (l.foldl (scanStep f) (md, mi) = (md, mi) ∨
        ((l.foldl (scanStep f) (md, mi)).2 ∈ l ∧
         (l.foldl (scanStep f) (md, mi)).1 = f (l.foldl (scanStep f) (md, mi)).2 ∧
         md < (l.foldl (scanStep f) (md, mi)).1)) ∧
      (∀ i ∈ l, i < (l.foldl (scanStep f) (md, mi)).2 →
        f i < (l.foldl (scanStep f) (md, mi)).1) := by
  intro l
  induction l with
  | nil =>
    intro md mi _ _
    exact ⟨le_refl _, by simp, Or.inl rfl, by simp⟩
  | cons a l ih =>
    intro md mi hsort hmi
    rw [List.sorted_cons] at hsort
    obtain ⟨ha, hsort2⟩ := hsort
    simp only [List.foldl_cons]
    by_cases hgt : f a > md
    · rw [show scanStep f (md, mi) a = (f a, a) from by simp [scanStep, hgt]]
      obtain ⟨ih1, ih2, ih3, ih4⟩ := ih (f a) a hsort2 ha
      refine ⟨le_of_lt (lt_of_lt_of_le hgt ih1), ?_, ?_, ?_⟩
      · intro i hi
        rcases List.mem_cons.mp hi with rfl | hi2
        · exact ih1
        · exact ih2 i hi2
      · rcases ih3 with heq | ⟨hmem, hval, hlt⟩
        · refine Or.inr ⟨?_, ?_, ?_⟩
          · rw [heq]; exact List.mem_cons_self a l
          · rw [heq]
          · rw [heq]; exact hgt
        · exact Or.inr ⟨List.mem_cons_of_mem a hmem, hval,
            lt_of_lt_of_le hgt ih1⟩
      · intro i hi hilt
        rcases List.mem_cons.mp hi with rfl | hi2
        · rcases ih3 with heq | ⟨hmem, hval, hlt⟩
          · rw [heq] at hilt; exact absurd hilt (lt_irrefl _)
          · exact hlt
        · exact ih4 i hi2 hilt
    · rw [show scanStep f (md, mi) a = (md, mi) from by simp [scanStep, hgt]]
      obtain ⟨ih1, ih2, ih3, ih4⟩ := ih md mi hsort2
        (fun i hi => lt_trans (hmi a (List.mem_cons_self a l)) (ha i hi))
      refine ⟨ih1, ?_, ?_, ?_⟩
      · intro i hi
        rcases List.mem_cons.mp hi with rfl | hi2
        · exact le_trans (le_of_not_gt hgt) ih1
        · exact ih2 i hi2
      · rcases ih3 with heq | ⟨hmem, hval, hlt⟩
        · exact Or.inl heq
        · exact Or.inr ⟨List.mem_cons_of_mem a hmem, hval, hlt⟩
      · intro i hi hilt
        rcases List.mem_cons.mp hi with rfl | hi2
        · rcases ih3 with heq | ⟨hmem, hval, hlt⟩
          · rw [heq] at hilt
            exact absurd hilt (not_lt_of_gt (hmi i (List.mem_cons_self i l)))
          · exact lt_of_le_of_lt (le_of_not_gt hgt) hlt
        · exact ih4 i hi2 hilt

/-- perpendicularDistance of the segment start point from its own chord is 0. -/
lemma perpDist2_self_left (a b : Point) : perpDist2 a a b = 0 := by
  simp only [perpDist2]
  split_ifs with h
  · rw [sub_self, sub_self]; norm_num
  · rw [show (b.y - a.y) * a.x - (b.x - a.x) * a.y + b.x * a.y - b.y * a.x = 0 from by ring]
    norm_num

/-- perpendicularDistance of the segment end point from its own chord is 0. -/
lemma perpDist2_self_right (a b : Point) : perpDist2 b a b = 0 := by
  simp only [perpDist2]
  split_ifs with h
  · rw [h.1, h.2]; norm_num
  · rw [show (b.y - a.y) * b.x - (b.x - a.x) * b.y + b.x * a.y - b.y * a.x = 0 from by ring]
    norm_num

/-- A getD at an in-range index is a member of the list. -/
lemma getD_point_mem (l : List Point) (i : ℕ) (h : i < l.length) :
    l.getD i ⟨0, 0⟩ ∈ l := by
  rw [List.getD_eq_getElem l ⟨0, 0⟩ h]
  exact List.getElem_mem h

/-- The farthest-point scan returns exactly (D, k) when index k carries the
first occurrence of the maximal distance D: everything before k is strictly
smaller, everything after is at most D. -/
lemma scanMax_eq (f : ℕ → ℚ) (n k : ℕ) (D : ℚ)
    (hn : 3 ≤ n) (hk1 : 1 ≤ k) (hk2 : k < n - 1) (hD : f k = D) (hDpos : 0 < D)
    (hbef : ∀ i, 1 ≤ i → i < k → f i < D)
    (haft : ∀ i, k < i → i < n - 1 → f i ≤ D) :
    scanMax f n = (D, k) := by
  have hsorted : (List.range' 1 (n - 2)).Sorted (· < ·) := List.pairwise_lt_range' 1 (n - 2)
  have hgt0 : ∀ i ∈ List.range' 1 (n - 2), 0 < i := fun i hi => (List.mem_range'_1.mp hi).1
  obtain ⟨h1, h2, h3, h4⟩ := scan_go f (List.range' 1 (n - 2)) 0 0 hsorted hgt0
  rw [show (List.range' 1 (n - 2)).foldl (scanStep f) (0, 0) = scanMax f n from rfl]
    at h1 h2 h3 h4
  have hkmem : k ∈ List.range' 1 (n - 2) := List.mem_range'_1.mpr ⟨hk1, by omega⟩
  have hDle : D ≤ (scanMax f n).1 := hD ▸ h2 k hkmem
  rcases h3 with heq | ⟨hmem, hval, _⟩
  · rw [heq] at hDle
    exact absurd (lt_of_lt_of_le hDpos hDle) (lt_irrefl 0)
  · obtain ⟨hr1, hr2⟩ := List.mem_range'_1.mp hmem
    rcases lt_trichotomy (scanMax f n).2 k with hc | hc | hc
    · have h5 : (scanMax f n).1 < D := by rw [hval]; exact hbef _ hr1 hc
      linarith
    · have h5 : (scanMax f n).1 = D := by rw [hval, hc, hD]
      exact Prod.ext h5 hc
    · have h5 : (scanMax f n).1 ≤ D := by rw [hval]; exact haft _ hc (by omega)
      have h6 : f k < (scanMax f n).1 := h4 k hkmem hc
      rw [hD] at h6
      linarith

/-- Master invariant of the Douglas-Peucker recursion for epsilon ≥ 0: on any
input there is a definite output `out` which is a sublist of the input sharing
its endpoints, has at least two points whenever the input does, and — the key
point — is a fixed point: running simplifyFuel on `out` returns `out` again,
because the pass-2 scan finds the split point of pass 1 (its distance survived,
everything strictly before it was strictly below the maximum and everything
after it at most the maximum, duplicates of the split vertex being excluded by
a counting argument on the sublist). -/
lemma simplifyFuel_spec (ε : ℚ) (hε : 0 ≤ ε) :
    ∀ (n : ℕ) (pts : List Point), pts.length = n →
      ∃ out : List Point,
        out.Sublist pts ∧
        out[0]? = pts[0]? ∧
        out[out.length - 1]? = pts[pts.length - 1]? ∧
        (2 ≤ pts.length → 2 ≤ out.length) ∧
        (pts.length ≤ 2 → out = pts) ∧
        (∀ fuel, pts.length < fuel → simplifyFuel fuel pts ε = some out) ∧
        (∀ fuel, out.length < fuel → simplifyFuel fuel out ε = some out) := by
  intro n
  induction n using Nat.strong_induction_on with
  | _ n ih =>
    intro pts hlen
    subst hlen
    by_cases hle : pts.length ≤ 2
    · have hade : ∀ fuel, pts.length < fuel → simplifyFuel fuel pts ε = some pts := by
        intro fuel hfu
        cases fuel with
        | zero => omega
        | succ g => rw [simplifyFuel, if_pos hle]
      exact ⟨pts, List.Sublist.refl pts, rfl, rfl, fun h => h, fun _ => rfl, hade,
        fun fuel h => hade fuel h⟩
    · have hlen3 : 3 ≤ pts.length := by omega
      set F := fun i => perpDist2 (pts.getD i ⟨0, 0⟩) (pts.getD 0 ⟨0, 0⟩)
        (pts.getD (pts.length - 1) ⟨0, 0⟩) with hF
      set st := scanMax F pts.length with hstd
      have hfold : (List.range' 1 (pts.length - 2)).foldl (scanStep F) (0, 0) = st := by
        rw [hstd]; rfl
      by_cases hsp : st.1 > ε * |ε|
      · -- the recursive split case
        have h0st : 0 < st.1 := lt_of_le_of_lt (mul_nonneg hε (abs_nonneg ε)) hsp
        obtain ⟨hs1, hs2, hs3, hs4⟩ := scan_go F (List.range' 1 (pts.length - 2)) 0 0
          (List.pairwise_lt_range' 1 (pts.length - 2))
          (fun i hi => (List.mem_range'_1.mp hi).1)
        rw [hfold] at hs1 hs2 hs3 hs4
        rcases hs3 with heq | ⟨hmem, hval, _⟩
        · rw [heq] at h0st
          simp at h0st
        obtain ⟨hm1, hm2'⟩ := List.mem_range'_1.mp hmem
        have hm2 : st.2 < pts.length - 1 := by omega
        have hidx : st.2 < pts.length := by omega
        have hLLlen : (pts.take (st.2 + 1)).length = st.2 + 1 := by
          rw [List.length_take]; omega
        have hRRlen : (pts.drop st.2).length = pts.length - st.2 := by
          rw [List.length_drop]
        obtain ⟨outL, subL, hL0, hLlast, hL2, _, adeL, ideL⟩ :=
          ih (pts.take (st.2 + 1)).length (by rw [hLLlen]; omega) (pts.take (st.2 + 1)) rfl
        obtain ⟨outR, subR, hR0, hRlast, hR2, _, adeR, ideR⟩ :=
          ih (pts.drop st.2).length (by rw [hRRlen]; omega) (pts.drop st.2) rfl
        have hL2' : 2 ≤ outL.length := hL2 (by rw [hLLlen]; omega)
        have hR2' : 2 ≤ outR.length := hR2 (by rw [hRRlen]; omega)
        have houtLne : outL ≠ [] := List.ne_nil_of_length_pos (by omega)
        have houtRne : outR ≠ [] := List.ne_nil_of_length_pos (by omega)
        have hL0' : outL[0]? = pts[0]? := by
          rw [hL0, List.getElem?_take, if_pos (by omega : 0 < st.2 + 1)]
        have hLlast' : outL[outL.length - 1]? = pts[st.2]? := by
          rw [hLlast, hLLlen, show st.2 + 1 - 1 = st.2 from rfl,
            List.getElem?_take, if_pos (by omega : st.2 < st.2 + 1)]
        have hR0' : outR[0]? = pts[st.2]? := by
          rw [hR0, List.getElem?_drop, show st.2 + 0 = st.2 from rfl]
        have hRlast' : outR[outR.length - 1]? = pts[pts.length - 1]? := by
          rw [hRlast, hRRlen, List.getElem?_drop,
            show st.2 + (pts.length - st.2 - 1) = pts.length - 1 from by omega]
        have hqvalL : outL.getLast houtLne = pts[st.2] := by
          have h1 : outL.getLast? = some (outL.getLast houtLne) :=
            List.getLast?_eq_getLast outL houtLne
          rw [List.getLast?_eq_getElem?, hLlast', List.getElem?_eq_getElem hidx] at h1
          exact (Option.some.inj h1).symm
        have hqvalR : outR.head houtRne = pts[st.2] := by
          have h1 : outR.head? = some (outR.head houtRne) := List.head?_eq_head houtRne
          rw [List.head?_eq_getElem?, hR0', List.getElem?_eq_getElem hidx] at h1
          exact (Option.some.inj h1).symm
        have houtLdecomp : outL.dropLast ++ [pts[st.2]] = outL := by
          rw [← hqvalL]
          exact List.dropLast_append_getLast houtLne
        have houtRdecomp : pts[st.2] :: outR.tail = outR := by
          rw [← hqvalR]
          exact List.head_cons_tail outR houtRne
        have hdllen : outL.dropLast.length = outL.length - 1 := by simp
        have houtlen : (outL.dropLast ++ outR).length = outL.length - 1 + outR.length := by
          rw [List.length_append, hdllen]
        have houtlen3 : 3 ≤ (outL.dropLast ++ outR).length := by rw [houtlen]; omega
        have hsub : (outL.dropLast ++ outR).Sublist pts := by
          have h2 : (pts[st.2] :: outR.tail).Sublist (pts[st.2] :: pts.drop (st.2 + 1)) := by
            rw [houtRdecomp, ← List.drop_eq_getElem_cons hidx]
            exact subR
          have h3 := List.Sublist.append subL (List.cons_sublist_cons.mp h2)
          rw [List.take_append_drop] at h3
          have h4 : outL.dropLast ++ outR = outL ++ outR.tail := by
            conv_lhs => rw [← houtRdecomp]
            rw [List.append_cons, houtLdecomp]
          rw [h4]
          exact h3
        have hout0 : (outL.dropLast ++ outR)[0]? = pts[0]? := by
          have hb : 0 < outL.dropLast.length := by rw [hdllen]; omega
          rw [List.getElem?_append, if_pos hb, List.getElem?_eq_getElem hb,
            List.getElem_dropLast, ← List.getElem?_eq_getElem (by omega : 0 < outL.length),
            hL0']
        have houtlast : (outL.dropLast ++ outR)[(outL.dropLast ++ outR).length - 1]?
            = pts[pts.length - 1]? := by
          rw [List.getElem?_append_right (by rw [houtlen, hdllen]; omega),
            show (outL.dropLast ++ outR).length - 1 - outL.dropLast.length
              = outR.length - 1 from by rw [houtlen, hdllen]; omega]
          exact hRlast'
        have hg0 : (outL.dropLast ++ outR).getD 0 ⟨0, 0⟩ = pts.getD 0 ⟨0, 0⟩ := by
          rw [List.getD_eq_getElem?_getD, hout0, ← List.getD_eq_getElem?_getD]
        have hgn : (outL.dropLast ++ outR).getD ((outL.dropLast ++ outR).length - 1) ⟨0, 0⟩
            = pts.getD (pts.length - 1) ⟨0, 0⟩ := by
          rw [List.getD_eq_getElem?_getD, houtlast, ← List.getD_eq_getElem?_getD]
        have hgk : (outL.dropLast ++ outR).getD (outL.length - 1) ⟨0, 0⟩
            = pts.getD st.2 ⟨0, 0⟩ := by
          rw [List.getD_eq_getElem?_getD,
            List.getElem?_append_right (le_of_eq hdllen),
            show outL.length - 1 - outL.dropLast.length = 0 from by rw [hdllen]; omega,
            hR0', ← List.getD_eq_getElem?_getD]
        have hbefore_val : ∀ q ∈ pts.take st.2,
            perpDist2 q (pts.getD 0 ⟨0, 0⟩) (pts.getD (pts.length - 1) ⟨0, 0⟩) < st.1 := by
          intro q hq
          obtain ⟨j, hj, hjq⟩ := List.mem_take_iff_getElem.mp hq
          have hjs : j < st.2 := lt_of_lt_of_le hj (min_le_left _ _)
          have hjl : j < pts.length := lt_of_lt_of_le hj (min_le_right _ _)
          by_cases hj0 : j = 0
          · subst hj0
            have hq0 : q = pts.getD 0 ⟨0, 0⟩ := by
              rw [List.getD_eq_getElem pts ⟨0, 0⟩ hjl]
              exact hjq.symm
            rw [hq0, perpDist2_self_left]
            exact h0st
          · have hjmem : j ∈ List.range' 1 (pts.length - 2) :=
              List.mem_range'_1.mpr ⟨by omega, by omega⟩
            have h5 := hs4 j hjmem hjs
            simp only [hF] at h5
            rw [List.getD_eq_getElem pts ⟨0, 0⟩ hjl, hjq] at h5
            exact h5
        have hafter_val : ∀ q ∈ pts.drop st.2,
            perpDist2 q (pts.getD 0 ⟨0, 0⟩) (pts.getD (pts.length - 1) ⟨0, 0⟩) ≤ st.1 := by
          intro q hq
          obtain ⟨jj, hjj, hjeq⟩ := List.mem_iff_getElem.mp hq
          have hjjl : jj < pts.length - st.2 := by rw [hRRlen] at hjj; exact hjj
          have hq' : q = pts.getD (st.2 + jj) ⟨0, 0⟩ := by
            rw [← hjeq, ← List.getD_eq_getElem (pts.drop st.2) ⟨0, 0⟩ hjj,
              List.getD_eq_getElem?_getD, List.getD_eq_getElem?_getD, List.getElem?_drop]
          by_cases hlast : st.2 + jj = pts.length - 1
          · rw [hq', hlast, perpDist2_self_right]
            exact le_of_lt h0st
          · have hjmem : st.2 + jj ∈ List.range' 1 (pts.length - 2) :=
              List.mem_range'_1.mpr ⟨by omega, by omega⟩
            have h5 := hs2 _ hjmem
            simp only [hF] at h5
            rw [hq']
            exact h5
        have hbef_out : ∀ i, i < outL.length - 1 →
            perpDist2 ((outL.dropLast ++ outR).getD i ⟨0, 0⟩)
              ((outL.dropLast ++ outR).getD 0 ⟨0, 0⟩)
              ((outL.dropLast ++ outR).getD ((outL.dropLast ++ outR).length - 1) ⟨0, 0⟩)
              < st.1 := by
          intro i hik
          rw [hg0, hgn]
          have hidl : i < outL.dropLast.length := by rw [hdllen]; omega
          have hiL : i < outL.length := by omega
          have hvq : (outL.dropLast ++ outR).getD i ⟨0, 0⟩ = outL[i] := by
            rw [List.getD_eq_getElem?_getD, List.getElem?_append, if_pos hidl,
              List.getElem?_eq_getElem hidl, List.getElem_dropLast]
            rfl
          rw [hvq]
          have hqmem : outL[i] ∈ pts.take (st.2 + 1) :=
            List.Sublist.mem (List.getElem_mem hiL) subL
          by_cases hqt : outL[i] ∈ pts.take st.2
          · exact hbefore_val _ hqt
          · exfalso
            have hq2 : outL[i] = pts[st.2] := by
              rw [List.take_succ, List.getElem?_eq_getElem hidx] at hqmem
              rcases List.mem_append.mp hqmem with h | h
              · exact absurd h hqt
              · simpa using h
            have hc1 : List.count pts[st.2] outL ≤ List.count pts[st.2] (pts.take (st.2 + 1)) :=
              subL.count_le _
            have hc2 : List.count pts[st.2] (pts.take (st.2 + 1)) = 1 := by
              rw [List.take_succ, List.getElem?_eq_getElem hidx, List.count_append,
                List.count_eq_zero.mpr (by rw [← hq2]; exact hqt)]
              simp
            have hmemdl : pts[st.2] ∈ outL.dropLast := by
              rw [← hq2, ← List.getElem_dropLast outL i hidl]
              exact List.getElem_mem hidl
            have hc3 : 0 < List.count pts[st.2] outL.dropLast := List.count_pos_iff.mpr hmemdl
            have hc4 : List.count pts[st.2] outL
                = List.count pts[st.2] outL.dropLast + 1 := by
              conv_lhs => rw [← houtLdecomp]
              rw [List.count_append]
              simp
            omega
        have haft_out : ∀ i, outL.length - 1 < i → i < (outL.dropLast ++ outR).length - 1 →
            perpDist2 ((outL.dropLast ++ outR).getD i ⟨0, 0⟩)
              ((outL.dropLast ++ outR).getD 0 ⟨0, 0⟩)
              ((outL.dropLast ++ outR).getD ((outL.dropLast ++ outR).length - 1) ⟨0, 0⟩)
              ≤ st.1 := by
          intro i hki hin
          rw [hg0, hgn]
          have hj : i - outL.dropLast.length < outR.length := by
            rw [hdllen]
            rw [houtlen] at hin
            omega
          have hvq : (outL.dropLast ++ outR).getD i ⟨0, 0⟩ = outR[i - outL.dropLast.length] := by
            rw [List.getD_eq_getElem?_getD,
              List.getElem?_append_right (by rw [hdllen]; omega),
              List.getElem?_eq_getElem hj]
            rfl
          rw [hvq]
          exact hafter_val _ (List.Sublist.mem (List.getElem_mem hj) subR)
        have hDeq : perpDist2 ((outL.dropLast ++ outR).getD (outL.length - 1) ⟨0, 0⟩)
            ((outL.dropLast ++ outR).getD 0 ⟨0, 0⟩)
            ((outL.dropLast ++ outR).getD ((outL.dropLast ++ outR).length - 1) ⟨0, 0⟩)
            = st.1 := by
          rw [hg0, hgn, hgk, hval]
        have hscan2 : scanMax (fun i => perpDist2 ((outL.dropLast ++ outR).getD i ⟨0, 0⟩)
              ((outL.dropLast ++ outR).getD 0 ⟨0, 0⟩)
              ((outL.dropLast ++ outR).getD ((outL.dropLast ++ outR).length - 1) ⟨0, 0⟩))
            (outL.dropLast ++ outR).length = (st.1, outL.length - 1) :=
          scanMax_eq _ _ _ _ houtlen3 (by omega) (by rw [houtlen]; omega) hDeq h0st
            (fun i _ h2 => hbef_out i h2) (fun i h1 h2 => haft_out i h1 h2)
        have htake : (outL.dropLast ++ outR).take (outL.length - 1 + 1) = outL := by
          rw [show outL.length - 1 + 1 = outL.dropLast.length + 1 from by rw [hdllen],
            List.take_append]
          conv_lhs => rw [← houtRdecomp]
          rw [show List.take 1 (pts[st.2] :: outR.tail) = [pts[st.2]] from rfl]
          exact houtLdecomp
        have hdrop : (outL.dropLast ++ outR).drop (outL.length - 1) = outR := by
          rw [show outL.length - 1 = outL.dropLast.length from hdllen.symm, List.drop_left]
        have hadq : ∀ fuel, pts.length < fuel →
            simplifyFuel fuel pts ε = some (outL.dropLast ++ outR) := by
          intro fuel hfu
          cases fuel with
          | zero => omega
          | succ g =>
            rw [simplifyFuel_succ, if_neg (by omega), ← hF, ← hstd, if_pos hsp,
              adeL g (by rw [hLLlen]; omega), adeR g (by rw [hRRlen]; omega)]
        have hidm : ∀ fuel, (outL.dropLast ++ outR).length < fuel →
            simplifyFuel fuel (outL.dropLast ++ outR) ε = some (outL.dropLast ++ outR) := by
          intro fuel hfu
          cases fuel with
          | zero => omega
          | succ g =>
            rw [simplifyFuel_succ, if_neg (by omega), hscan2,
              if_pos (show ((st.1, outL.length - 1) : ℚ × ℕ).1 > ε * |ε| from hsp),
              show ((st.1, outL.length - 1) : ℚ × ℕ).2 = outL.length - 1 from rfl,
              htake, hdrop, ideL g (by rw [houtlen] at hfu; omega),
              ideR g (by rw [houtlen] at hfu; omega)]
        exact ⟨outL.dropLast ++ outR, hsub, hout0, houtlast, fun _ => by omega,
          fun h => absurd h hle, hadq, hidm⟩
      · -- no split: the output is the two endpoints
        have hlpos : 0 < pts.length := by omega
        have hl1 : pts.length - 1 < pts.length := by omega
        have hadq : ∀ fuel, pts.length < fuel → simplifyFuel fuel pts ε
            = some [pts.getD 0 ⟨0, 0⟩, pts.getD (pts.length - 1) ⟨0, 0⟩] := by
          intro fuel hfu
          cases fuel with
          | zero => omega
          | succ g => rw [simplifyFuel_succ, if_neg (by omega), ← hF, ← hstd, if_neg hsp]
        have hidm : ∀ fuel,
            ([pts.getD 0 ⟨0, 0⟩, pts.getD (pts.length - 1) ⟨0, 0⟩] : List Point).length < fuel →
            simplifyFuel fuel [pts.getD 0 ⟨0, 0⟩, pts.getD (pts.length - 1) ⟨0, 0⟩] ε
            = some [pts.getD 0 ⟨0, 0⟩, pts.getD (pts.length - 1) ⟨0, 0⟩] := by
          intro fuel hfu
          cases fuel with
          | zero => simp at hfu
          | succ g => rw [simplifyFuel, if_pos (by simp)]
        have hsub : ([pts.getD 0 ⟨0, 0⟩, pts.getD (pts.length - 1) ⟨0, 0⟩] : List Point).Sublist
            pts := by
          rw [List.getD_eq_getElem pts ⟨0, 0⟩ hlpos, List.getD_eq_getElem pts ⟨0, 0⟩ hl1]
          have hdecomp := List.drop_eq_getElem_cons (l := pts) (n := 0) hlpos
          rw [List.drop_zero] at hdecomp
          conv_rhs => rw [hdecomp]
          refine List.cons_sublist_cons.mpr (List.singleton_sublist.mpr ?_)
          have h7 : pts[pts.length - 1] = (pts.drop 1).getD (pts.length - 2) ⟨0, 0⟩ := by
            rw [List.getD_eq_getElem?_getD, List.getElem?_drop,
              show 1 + (pts.length - 2) = pts.length - 1 from by omega,
              List.getElem?_eq_getElem hl1]
            rfl
          rw [h7]
          exact getD_point_mem _ _ (by rw [List.length_drop]; omega)
        refine ⟨[pts.getD 0 ⟨0, 0⟩, pts.getD (pts.length - 1) ⟨0, 0⟩], hsub, ?_, ?_,
          fun _ => by simp, fun h => absurd h hle, hadq, hidm⟩
        · show some (pts.getD 0 ⟨0, 0⟩) = pts[0]?
          rw [List.getD_eq_getElem pts ⟨0, 0⟩ hlpos, List.getElem?_eq_getElem hlpos]
        · show some (pts.getD (pts.length - 1) ⟨0, 0⟩) = pts[pts.length - 1]?
          rw [List.getD_eq_getElem pts ⟨0, 0⟩ hl1, List.getElem?_eq_getElem hl1]

/-- C9: simplifyPolyline is idempotent for every tolerance epsilon ≥ 0 — the
first pass returns a definite simplified list, and running simplifyPolyline on
its own output returns that output unchanged, because every surviving interior
vertex sits strictly farther than epsilon from its segment chord and the pass-2
scans rediscover the pass-1 split points.  (For epsilon < 0 the claim fails:
see the divergence counterexample simplifyPolyline_neg_epsilon_diverges.) -/
theorem simplifyPolyline_idempotent (points : List Point) (ε : ℚ) (hε : 0 ≤ ε) :
    ∃ out, simplifyPolyline points ε = some out ∧ simplifyPolyline out ε = some out := by
  obtain ⟨out, _, _, _, _, _, hade, hidm⟩ :=
    simplifyFuel_spec ε hε points.length points rfl
  exact ⟨out, hade _ (Nat.lt_succ_self _), hidm _ (Nat.lt_succ_self _)⟩

/-- Witness for C9 at a concrete input: a three-point corner with epsilon 1. -/
theorem simplifyPolyline_idempotent_witness :
    (0 : ℚ) ≤ 1 ∧ ∃ out, simplifyPolyline [⟨0, 0⟩, ⟨1, 1⟩, ⟨2, 0⟩] 1 = some out ∧
      simplifyPolyline out 1 = some out :=
  ⟨by norm_num, simplifyPolyline_idempotent [⟨0, 0⟩, ⟨1, 1⟩, ⟨2, 0⟩] 1 (by norm_num)⟩

end Floorplan
